import Mathlib

/-!
# Verification of the rm-workspace-api bucket-access reconciliation engine

Shallow embedding of the core pure logic of `workspace_api/views.py` and
`workspace_api/models.py`:

* the read path `_extract_relevant_bucket_access_requests` (explicit requests,
  implicit requests synthesized from discoverable buckets, grant folding);
* the write path of `update_workspace` restricted to the Storage patch
  (add-bucket, add/claim request, add/overwrite grant);
* the pydantic validation of `BucketAccessRequest` and `WorkspaceEdit`.

Modelling conventions:

* Python strings are `String`; `str.strip()` is modelled by `pyStrip`
  (ASCII whitespace, which is what the data in question contains).
* `datetime.fromisoformat` is modelled by `fromisoformat` over `PyDatetime`
  (proleptic-Gregorian fields plus UTC offset), including its `ValueError`
  path, and `_coerce_utc` converts to UTC with calendar arithmetic (its
  `astimezone` raising `OverflowError` outside the year range).  The grammar
  is the deterministic core of the CPython 3.11 parser (extended and basic
  date/time, any single separator character, `.`/`,` fractions truncated to
  six digits, `Z` and `[+-]HH[[:]MM[[:]SS]]` offsets bounded below one day);
  ISO week dates, fractions attached to hours or minutes, and fractional
  offsets are not modelled: on those rare shapes the model raises where
  CPython parses, which only ever strengthens a parse-success hypothesis and
  never certifies an input the program would reject.  Validated timestamps
  are then carried as their canonical UTC `isoformat` string (`parseTs`),
  which is injective on the stored values, so stored `datetime`s and their
  serializations can share one representation.
* JSON dict entries inside record lists are `JsonEntry α`: `.nondict` stands
  for a list element that is not a dict (the code skips these), `.dict a` for
  a dict with the fields the code reads.  A field that may be absent or null
  is an `Option`; where the code distinguishes an absent key from a null
  value (`dict.setdefault`), the model uses `KeyVal`.
* The Kubernetes list/get calls are external: the extractor takes the list of
  storage items as an argument and the update path takes a lookup function
  `store : String -> Option StorageSpec` for resolving grantee records, as
  the design notes of the engine prescribe for testing.
* pydantic raising a `ValidationError` is modelled by `Except String`.
-/

/-- ASCII whitespace, the character class stripped by `str.strip()` on the
data handled here. -/
def isSpaceChar (c : Char) : Bool :=
  c = ' ' || c = '\t' || c = '\n' || c = '\x0d' || c = '\x0b' || c = '\x0c'

/-- Model of Python `str.strip()`: drop whitespace from both ends. -/
def pyStrip (s : String) : String :=
  ⟨List.rdropWhile isSpaceChar (s.toList.dropWhile isSpaceChar)⟩

/-- Python `(o or "").strip()` for a possibly missing string field. -/
def stripOpt (o : Option String) : String := pyStrip (o.getD "")

/-- Python truthiness of a `str | None` value (`None` and `""` are falsy). -/
def truthyStr (o : Option String) : Bool := (o.getD "") ≠ ""

/-- Python `a or b` on `str | None` values. -/
def pyOrStr (a b : Option String) : Option String :=
  match a with
  | some s => if s = "" then b else some s
  | none => b

/-- Char-list prefix test. -/
def listIsPrefixOf : List Char → List Char → Bool
  | [], _ => true
  | _ :: _, [] => false
  | a :: as, b :: bs => a = b && listIsPrefixOf as bs

/-- Char-list infix test. -/
def containsSubList (needle : List Char) : List Char → Bool
  | [] => needle = ([] : List Char)
  | c :: rest => listIsPrefixOf needle (c :: rest) || containsSubList needle rest

/-- Substring test (`needle in hay` in Python). -/
def containsSubstr (hay needle : String) : Bool :=
  containsSubList needle.toList hay.toList

/-- ASCII lower-casing of one character (`str.lower()` on the ASCII data in
scope). -/
def lowerChar (c : Char) : Char :=
  if 'A' ≤ c ∧ c ≤ 'Z' then Char.ofNat (c.toNat + 32) else c

/-- `str.lower()`. -/
def pyLower (s : String) : String := ⟨s.toList.map lowerChar⟩

/-- `str.replace(ch, "")` for a single-character needle: drops every
occurrence of that character. -/
def removeAllChar (ch : Char) (s : String) : String :=
  ⟨s.toList.filter (fun c => c ≠ ch)⟩

/-- A JSON scalar, as far as `_as_bool` inspects it. -/
inductive JsonScalar where
  | null
  | bool (b : Bool)
  | str (s : String)
  | num (n : Int)
deriving DecidableEq

/-- `views._as_bool`. -/
def _as_bool : JsonScalar → Bool
  | .bool b => b
  | .null => false
  | .num n => n ≠ 0
  | .str v => ["true", "1", "yes", "y", "on"].contains (pyLower (pyStrip v))

/-- `views._get_first`: first argument that is non-None and strips to a
non-empty string, returned stripped. -/
def _get_first : List (Option String) → Option String
  | [] => none
  | none :: rest => _get_first rest
  | some v :: rest =>
    let s := pyStrip v
    if s = "" then _get_first rest else some s

/-- A parsed `datetime`: proleptic-Gregorian calendar fields plus an
optional UTC offset in seconds (`none` = naive). -/
structure PyDatetime where
  year : Nat
  month : Nat
  day : Nat
  hour : Nat
  minute : Nat
  second : Nat
  microsecond : Nat
  offsetSeconds : Option Int
deriving DecidableEq

/-- Numeric value of an ASCII digit. -/
def digitVal? (c : Char) : Option Nat :=
  if '0' ≤ c ∧ c ≤ '9' then some (c.toNat - '0'.toNat) else none

/-- Two leading digits. -/
def take2 : List Char → Option (Nat × List Char)
  | a :: b :: rest =>
    match digitVal? a, digitVal? b with
    | some x, some y => some (10 * x + y, rest)
    | _, _ => none
  | _ => none

/-- Four leading digits. -/
def take4 (cs : List Char) : Option (Nat × List Char) :=
  match take2 cs with
  | none => none
  | some (hi, rest) =>
    match take2 rest with
    | none => none
    | some (lo, rest2) => some (100 * hi + lo, rest2)

/-- The date part of `datetime.fromisoformat`: `YYYY-MM-DD` or `YYYYMMDD`. -/
def parseDate (cs : List Char) : Option (Nat × Nat × Nat × List Char) :=
  match take4 cs with
  | none => none
  | some (y, rest) =>
    match rest with
    | '-' :: rest1 =>
      match take2 rest1 with
      | none => none
      | some (m, rest2) =>
        match rest2 with
        | '-' :: rest3 =>
          match take2 rest3 with
          | none => none
          | some (d, rest4) => some (y, m, d, rest4)
        | _ => none
    | _ =>
      match take2 rest with
      | none => none
      | some (m, rest2) =>
        match take2 rest2 with
        | none => none
        | some (d, rest3) => some (y, m, d, rest3)

/-- Fractional-second digits after the decimal separator: microseconds from
the first six digits, further digits truncated (CPython accepts an empty
fraction). -/
def fracLoop : List Char → Nat → Nat → Nat × List Char
  | [], acc, n => (acc * 10 ^ (6 - min n 6), [])
  | c :: rest, acc, n =>
    match digitVal? c with
    | some d =>
      if n < 6 then fracLoop rest (acc * 10 + d) (n + 1) else fracLoop rest acc (n + 1)
    | none => (acc * 10 ^ (6 - min n 6), c :: rest)

/-- Optional `.`/`,` fraction after the seconds. -/
def tryFrac : List Char → Nat × List Char
  | c :: rest => if c = '.' ∨ c = ',' then fracLoop rest 0 0 else (0, c :: rest)
  | [] => (0, [])

/-- The time part of `datetime.fromisoformat`: `HH[:MM[:SS[.ffffff]]]` in
extended or basic (colon-free) form. -/
def parseTime (cs : List Char) : Option (Nat × Nat × Nat × Nat × List Char) :=
  match take2 cs with
  | none => none
  | some (h, r0) =>
    match r0 with
    | ':' :: r1 =>
      match take2 r1 with
      | none => none
      | some (mi, r2) =>
        match r2 with
        | ':' :: r3 =>
          match take2 r3 with
          | none => none
          | some (se, r4) =>
            match tryFrac r4 with
            | (us, r5) => some (h, mi, se, us, r5)
        | _ => some (h, mi, 0, 0, r2)
    | c :: _ =>
      match digitVal? c with
      | some _ =>
        match take2 r0 with
        | none => none
        | some (mi, r2) =>
          match r2 with
          | c2 :: _ =>
            match digitVal? c2 with
            | some _ =>
              match take2 r2 with
              | none => none
              | some (se, r3) =>
                match tryFrac r3 with
                | (us, r4) => some (h, mi, se, us, r4)
            | none => some (h, mi, 0, 0, r2)
          | [] => some (h, mi, 0, 0, [])
      | none => some (h, 0, 0, 0, r0)
    | [] => some (h, 0, 0, 0, [])

/-- The trailing UTC-offset part of `datetime.fromisoformat`: nothing
(naive), `Z`, or `[+-]HH[[:]MM[[:]SS]]`, the total bounded strictly below one
day (the `timezone` constructor bound; CPython checks no per-component
ranges here). -/
def parseOffset : List Char → Option (Option Int)
  | [] => some none
  | ['Z'] => some (some 0)
  | c :: rest =>
    if c = '+' ∨ c = '-' then
      let sign : Int := if c = '-' then -1 else 1
      let mk := fun (oh om os : Nat) =>
        let total : Nat := oh * 3600 + om * 60 + os
        if total < 86400 then some (some (sign * (total : Int))) else none
      match take2 rest with
      | none => none
      | some (oh, r1) =>
        match r1 with
        | [] => mk oh 0 0
        | ':' :: r2 =>
          match take2 r2 with
          | none => none
          | some (om, r3) =>
            match r3 with
            | [] => mk oh om 0
            | ':' :: r4 =>
              match take2 r4 with
              | some (os, []) => mk oh om os
              | _ => none
            | _ => none
        | _ =>
          match take2 r1 with
          | none => none
          | some (om, r3) =>
            match r3 with
            | [] => mk oh om 0
            | _ =>
              match take2 r3 with
              | some (os, []) => mk oh om os
              | _ => none
    else none

/-- Gregorian leap year. -/
def isLeap (y : Nat) : Bool := (y % 4 = 0 && y % 100 ≠ 0) || y % 400 = 0

/-- Days in a month of the proleptic Gregorian calendar. -/
def daysInMonth (y m : Nat) : Nat :=
  if m = 2 then (if isLeap y then 29 else 28)
  else if m = 4 ∨ m = 6 ∨ m = 9 ∨ m = 11 then 30 else 31

/-- `datetime.fromisoformat`: date, then optionally one separator character
(any character), time and offset; field ranges as validated by the
`datetime` constructor (`ValueError` on failure). -/
def fromisoformat (s : String) : Except String PyDatetime :=
  match parseDate s.toList with
  | none => .error ("Invalid isoformat string: " ++ s)
  | some (y, mo, d, rest) =>
    if 1 ≤ y ∧ 1 ≤ mo ∧ mo ≤ 12 ∧ 1 ≤ d ∧ d ≤ daysInMonth y mo then
      match rest with
      | [] => .ok ⟨y, mo, d, 0, 0, 0, 0, none⟩
      | _ :: rest1 =>
        match parseTime rest1 with
        | none => .error ("Invalid isoformat string: " ++ s)
        | some (h, mi, se, us, rest2) =>
          match parseOffset rest2 with
          | none => .error ("Invalid isoformat string: " ++ s)
          | some off =>
            if h ≤ 23 ∧ mi ≤ 59 ∧ se ≤ 59 then .ok ⟨y, mo, d, h, mi, se, us, off⟩
            else .error ("Invalid isoformat string: " ++ s)
    else .error ("Invalid isoformat string: " ++ s)

/-- Days since 1970-01-01 of a proleptic-Gregorian date (Hinnant's
`days_from_civil`, the day-count of `datetime`'s timeline). -/
def daysFromCivil (y m d : Int) : Int :=
  let y1 := if m ≤ 2 then y - 1 else y
  let era := y1.ediv 400
  let yoe := y1 - era * 400
  let mp := (if m > 2 then m - 3 else m + 9)
  let doy := (153 * mp + 2).ediv 5 + d - 1
  let doe := yoe * 365 + yoe.ediv 4 - yoe.ediv 100 + doy
  era * 146097 + doe - 719468

/-- Inverse of `daysFromCivil` (Hinnant's `civil_from_days`). -/
def civilFromDays (z : Int) : Int × Int × Int :=
  let z1 := z + 719468
  let era := z1.ediv 146097
  let doe := z1 - era * 146097
  let yoe := (doe - doe.ediv 1460 + doe.ediv 36524 - doe.ediv 146096).ediv 365
  let y := yoe + era * 400
  let doy := doe - (365 * yoe + yoe.ediv 4 - yoe.ediv 100)
  let mp := (5 * doy + 2).ediv 153
  let d := doy - (153 * mp + 2).ediv 5 + 1
  let m := if mp < 10 then mp + 3 else mp - 9
  (if m ≤ 2 then y + 1 else y, m, d)

/-- `models._coerce_utc` on a parsed value: `None` passes through, a naive
datetime gets UTC attached (`tzinfo or UTC`), an aware one is converted to
UTC (`astimezone`, whose `OverflowError` outside the year range is a raise
like any other). -/
def _coerce_utc : Option PyDatetime → Except String (Option PyDatetime)
  | none => .ok none
  | some dt =>
    let off : Int := dt.offsetSeconds.getD 0
    let total : Int := daysFromCivil dt.year dt.month dt.day * 86400 +
      ((dt.hour * 3600 + dt.minute * 60 + dt.second : Nat) : Int) - off
    let days := total.ediv 86400
    let rem := (total.emod 86400).toNat
    match civilFromDays days with
    | (y, m, d) =>
      if 1 ≤ y ∧ y ≤ 9999 then
        .ok (some ⟨y.toNat, m.toNat, d.toNat, rem / 3600, rem % 3600 / 60, rem % 60,
          dt.microsecond, some 0⟩)
      else .error "date value out of range"

/-- An ASCII digit character. -/
def digitChar (n : Nat) : Char := Char.ofNat ('0'.toNat + n)

/-- Two-digit zero-padded decimal. -/
def pad2 (n : Nat) : String := ⟨[digitChar (n / 10 % 10), digitChar (n % 10)]⟩

/-- Four-digit zero-padded decimal. -/
def pad4 (n : Nat) : String :=
  ⟨[digitChar (n / 1000 % 10), digitChar (n / 100 % 10), digitChar (n / 10 % 10),
    digitChar (n % 10)]⟩

/-- Six-digit zero-padded decimal. -/
def pad6 (n : Nat) : String :=
  ⟨[digitChar (n / 100000 % 10), digitChar (n / 10000 % 10), digitChar (n / 1000 % 10),
    digitChar (n / 100 % 10), digitChar (n / 10 % 10), digitChar (n % 10)]⟩

/-- The `±HH:MM[:SS]` offset suffix of `datetime.isoformat`. -/
def offsetSuffix (off : Int) : String :=
  let sign := if off < 0 then "-" else "+"
  let a := off.natAbs
  sign ++ pad2 (a / 3600) ++ ":" ++ pad2 (a % 3600 / 60) ++
    (if a % 60 = 0 then "" else ":" ++ pad2 (a % 60))

/-- `datetime.isoformat()`. -/
def isoformat (dt : PyDatetime) : String :=
  pad4 dt.year ++ "-" ++ pad2 dt.month ++ "-" ++ pad2 dt.day ++ "T" ++
  pad2 dt.hour ++ ":" ++ pad2 dt.minute ++ ":" ++ pad2 dt.second ++
  (if dt.microsecond = 0 then "" else "." ++ pad6 dt.microsecond) ++
  (match dt.offsetSeconds with
   | none => ""
   | some off => offsetSuffix off)

/-- `models._iso`: isoformat of a stored timestamp; the identity here because
the model carries validated timestamps as their isoformat strings already. -/
def _iso (ts : Option String) : Option String := ts

/-- `models.BucketPermission`. -/
inductive BucketPermission where
  | READ_WRITE
  | READ_ONLY
  | WRITE_ONLY
  | NONE
deriving DecidableEq

/-- The `.value` string of a `BucketPermission` member (it is a `str` enum). -/
def bucketPermissionValue : BucketPermission → String
  | .READ_WRITE => "ReadWrite"
  | .READ_ONLY => "ReadOnly"
  | .WRITE_ONLY => "WriteOnly"
  | .NONE => "None"

/-- Adjacent-pair check of `models._is_s3_bucket_name`:
no "..", ".-" or "-." anywhere in the name. -/
def noBadAdj : List Char → Bool
  | a :: b :: rest =>
    !((a = '.' && b = '.') || (a = '.' && b = '-') || (a = '-' && b = '.')) &&
      noBadAdj (b :: rest)
  | _ => true

/-- `models._is_s3_bucket_name`. -/
def _is_s3_bucket_name (name : String) : Bool :=
  let cs := name.toList
  (3 ≤ cs.length && cs.length ≤ 63) &&
  cs.all (fun c => ('a' ≤ c && c ≤ 'z') || ('0' ≤ c && c ≤ '9') || c = '-' || c = '.') &&
  (match cs.head? with | some c => !(c = '.' || c = '-') | none => true) &&
  (match cs.getLast? with | some c => !(c = '.' || c = '-') | none => true) &&
  noBadAdj cs

/-- `models._validate_bucket_name`: strip, then S3-name check, raising
`ValueError` on failure. -/
def _validate_bucket_name (v : String) : Except String String :=
  let v2 := pyStrip v
  if _is_s3_bucket_name v2 then .ok v2 else .error "Invalid S3 bucket name."

/-- `models.BucketAccessRequest._parse_iso_dt` (mode="before" validator):
trim, blank-to-None, `Z` to `+00:00`, conditional `+00:00` append, then
`datetime.fromisoformat`, whose `ValueError` is re-raised with the original
input in the message. -/
def _parse_iso_dt : Option String → Except String (Option PyDatetime)
  | none => .ok none
  | some v =>
    let s := pyStrip v
    if s = "" then .ok none
    else
      let s2 :=
        if s.toList.getLast? = some 'Z' then (⟨s.toList.dropLast⟩ : String) ++ "+00:00"
        else if ¬ containsSubstr s "+" ∧ ¬ containsSubstr ⟨s.toList.drop 10⟩ "-" then
          s ++ "+00:00"
        else s
      match fromisoformat s2 with
      | .error _ => .error ("Invalid datetime string: " ++ v)
      | .ok dt => .ok (some dt)

/-- The full timestamp-field pipeline run by validation and by validated
assignment: `_parse_iso_dt` (mode="before") then `_ts_utc_opt`/`_coerce_utc`
(mode="after"); the resulting UTC datetime is carried as its `isoformat`
string. -/
def parseTs (v : Option String) : Except String (Option String) :=
  match _parse_iso_dt v with
  | .error e => .error e
  | .ok dto =>
    match _coerce_utc dto with
    | .error e => .error e
    | .ok none => .ok none
    | .ok (some dt2) => .ok (some (isoformat dt2))

/-- `models.BucketPermission` as inferred by `views._perm_from_str`. -/
def _perm_from_str (s : Option String) : BucketPermission :=
  let base := match s with
    | none => "none"
    | some v => if v = "" then "none" else v
  let raw := removeAllChar '-' (removeAllChar '_' (pyLower (pyStrip base)))
  if raw = "none" then .NONE
  else if raw = "readwrite" then .READ_WRITE
  else if raw = "writeonly" then .WRITE_ONLY
  else if raw = "readonly" then .READ_ONLY
  else .NONE

/-- `models.BucketAccessRequest` (the derived view), including the private
`_principal` tag used to match grants by identity. -/
structure BucketAccessRequest where
  workspace : String
  bucket : String
  permission : BucketPermission
  request_timestamp : Option String
  grant_timestamp : Option String
  denied_timestamp : Option String
  _principal : Option String := none
deriving DecidableEq

/-- Constructing a `BucketAccessRequest` runs the pydantic field validators:
`workspace` and `bucket` are stripped and must be non-empty, `bucket` must be
a valid S3 bucket name, timestamps go through `_parse_iso_dt`/`_coerce_utc`.
A failed validator raises (`Except.error`). -/
def mkBucketAccessRequest (workspace bucket : String) (permission : BucketPermission)
    (request_timestamp grant_timestamp denied_timestamp : Option String)
    (tag : Option String) : Except String BucketAccessRequest :=
  let ws := pyStrip workspace
  if ws = "" then .error "must not be empty"
  else
    let b1 := pyStrip bucket
    if b1 = "" then .error "must not be empty"
    else
      match _validate_bucket_name b1 with
      | .error e => .error e
      | .ok b2 =>
        match parseTs request_timestamp with
        | .error e => .error e
        | .ok rt =>
          match parseTs grant_timestamp with
          | .error e => .error e
          | .ok gt =>
            match parseTs denied_timestamp with
            | .error e => .error e
            | .ok dt =>
              .ok { workspace := ws
                    bucket := b2
                    permission := permission
                    request_timestamp := rt
                    grant_timestamp := gt
                    denied_timestamp := dt
                    _principal := tag }

/-- A list element of a JSON record that the code checks with
`isinstance(x, dict)`. -/
inductive JsonEntry (α : Type) where
  | nondict
  | dict (a : α)
deriving DecidableEq

/-- An element of `spec["bucketAccessRequests"]` as read by the extractor. -/
structure RawRequest where
  bucketName : Option String
  reason : Option String
  requestedAt : Option String
deriving DecidableEq

/-- An element of `spec["bucketAccessGrants"]` as read by the extractor. -/
structure RawGrant where
  bucketName : Option String
  grantee : Option String
  permission : Option String
  requestedAt : Option String
  grantedAt : Option String
  granted_at : Option String
deriving DecidableEq

/-- An element of `spec["buckets"]`. -/
structure BucketEntry where
  bucketName : Option String
  bucket : Option String
  discoverable : JsonScalar
deriving DecidableEq

/-- The spec of a Storage custom resource, with the fields the engine reads. -/
structure StorageSpec where
  principal : Option String
  buckets : List (JsonEntry BucketEntry)
  bucketAccessRequests : List (JsonEntry RawRequest)
  bucketAccessGrants : List (JsonEntry RawGrant)
deriving DecidableEq

/-- One item of the storage list: `metadata.name` plus the spec dict. -/
structure StorageItem where
  name : Option String
  spec : StorageSpec
deriving DecidableEq

/-- Permission inference from the free-text reason of a raw request
(the inlined heuristic of `_extract_relevant_bucket_access_requests`). -/
def permFromReason (reason : String) : BucketPermission :=
  if containsSubstr reason "readonly" || containsSubstr reason "read-only" then
    .READ_ONLY
  else if containsSubstr reason "writeonly" || containsSubstr reason "write-only" then
    .WRITE_ONLY
  else
    .READ_WRITE

/-- Pass 1 of the extractor, inner loop: the explicit requests of one record
(workspace name and stripped principal already computed, principal known to
be non-empty). -/
def extractRequestsOfRecord (disc : List String) (current_principal : String)
    (workspace_name principal : String) :
    List (JsonEntry RawRequest) → Except String (List BucketAccessRequest)
  | [] => .ok []
  | .nondict :: rest =>
    extractRequestsOfRecord disc current_principal workspace_name principal rest
  | .dict r :: rest =>
    let bucket_name := stripOpt r.bucketName
    if bucket_name = "" then
      extractRequestsOfRecord disc current_principal workspace_name principal rest
    else if ¬ (principal = current_principal ∨ bucket_name ∈ disc) then
      extractRequestsOfRecord disc current_principal workspace_name principal rest
    else if ¬ truthyStr r.requestedAt then
      extractRequestsOfRecord disc current_principal workspace_name principal rest
    else
      let reason := pyLower (stripOpt r.reason)
      let perm := permFromReason reason
      match mkBucketAccessRequest workspace_name bucket_name perm
          r.requestedAt none none (some principal) with
      | .error e => .error e
      | .ok req =>
        match extractRequestsOfRecord disc current_principal workspace_name principal rest with
        | .error e => .error e
        | .ok more => .ok (req :: more)

/-- Pass 1 of the extractor, outer loop: records with an empty principal are
skipped entirely in this pass. -/
def extractExplicit (disc : List String) (current_principal : String) :
    List StorageItem → Except String (List BucketAccessRequest)
  | [] => .ok []
  | item :: rest =>
    let workspace_name := stripOpt item.name
    let principal := stripOpt item.spec.principal
    if principal = "" then extractExplicit disc current_principal rest
    else
      match extractRequestsOfRecord disc current_principal workspace_name principal
          item.spec.bucketAccessRequests with
      | .error e => .error e
      | .ok here =>
        match extractExplicit disc current_principal rest with
        | .error e => .error e
        | .ok more => .ok (here ++ more)

/-- Pass 2 of the extractor, inner loop: synthesize implicit requests from
the discoverable buckets of one record, threading the
`existing_buckets_names` set (modelled as a list). -/
def extractImplicitBuckets (disc : List String) (curP curW : String) :
    List (JsonEntry BucketEntry) → List String →
    Except String (List BucketAccessRequest × List String)
  | [], ex => .ok ([], ex)
  | .nondict :: rest, ex => extractImplicitBuckets disc curP curW rest ex
  | .dict b :: rest, ex =>
    if ¬ _as_bool b.discoverable then extractImplicitBuckets disc curP curW rest ex
    else
      let bucket_name := stripOpt b.bucketName
      if bucket_name = "" ∨ bucket_name ∈ ex ∨ bucket_name ∈ disc then
        extractImplicitBuckets disc curP curW rest ex
      else
        match mkBucketAccessRequest curW bucket_name .READ_WRITE
            none none none (some curP) with
        | .error e => .error e
        | .ok req =>
          match extractImplicitBuckets disc curP curW rest (bucket_name :: ex) with
          | .error e => .error e
          | .ok (more, ex2) => .ok (req :: more, ex2)

/-- Pass 2 of the extractor, outer loop (note: no principal check here). -/
def extractImplicit (disc : List String) (curP curW : String) :
    List StorageItem → List String →
    Except String (List BucketAccessRequest × List String)
  | [], ex => .ok ([], ex)
  | item :: rest, ex =>
    match extractImplicitBuckets disc curP curW item.spec.buckets ex with
    | .error e => .error e
    | .ok (here, ex1) =>
      match extractImplicit disc curP curW rest ex1 with
      | .error e => .error e
      | .ok (more, ex2) => .ok (here ++ more, ex2)

/-- Pass 3: fold one recorded grant into the first matching entry
(match by bucket name and by the hidden principal tag); each timestamp
assignment runs the pydantic assignment validators
(`validate_assignment=True`), so an unparsable value raises. -/
def applyGrantToList (grantee bucket_name granted_at : String)
    (requestedAt permission : Option String) :
    List BucketAccessRequest → Except String (List BucketAccessRequest)
  | [] => .ok []
  | e :: rest =>
    if e.bucket = bucket_name ∧ e._principal = some grantee then
      match parseTs (pyOrStr requestedAt (some granted_at)) with
      | .error err => .error err
      | .ok rt =>
        let perm := _perm_from_str permission
        match parseTs (if perm ≠ .NONE then some granted_at else none) with
        | .error err => .error err
        | .ok gt =>
          match parseTs (if perm = .NONE then some granted_at else none) with
          | .error err => .error err
          | .ok dt =>
            .ok ({ e with request_timestamp := rt, grant_timestamp := gt, denied_timestamp := dt } :: rest)
    else
      match applyGrantToList grantee bucket_name granted_at requestedAt permission rest with
      | .error err => .error err
      | .ok rest2 => .ok (e :: rest2)

/-- Pass 3: one element of a record's `bucketAccessGrants` list. -/
def applyGrantEntry (out : List BucketAccessRequest) :
    JsonEntry RawGrant → Except String (List BucketAccessRequest)
  | .nondict => .ok out
  | .dict g =>
    let grantee := stripOpt g.grantee
    let bucket_name := stripOpt g.bucketName
    if grantee = "" ∨ bucket_name = "" then .ok out
    else
      match pyOrStr g.grantedAt g.granted_at with
      | none => .ok out
      | some s =>
        if s = "" then .ok out
        else applyGrantToList grantee bucket_name s g.requestedAt g.permission out

/-- Pass 3: the grants list of one record, folded left to right. -/
def applyGrantsOfRecord : List (JsonEntry RawGrant) → List BucketAccessRequest →
    Except String (List BucketAccessRequest)
  | [], out => .ok out
  | ge :: rest, out =>
    match applyGrantEntry out ge with
    | .error e => .error e
    | .ok out2 => applyGrantsOfRecord rest out2

/-- Pass 3 of the extractor: fold all recorded grants of all records into the
extracted list (again, no principal check). -/
def applyGrants : List StorageItem → List BucketAccessRequest →
    Except String (List BucketAccessRequest)
  | [], out => .ok out
  | item :: rest, out =>
    match applyGrantsOfRecord item.spec.bucketAccessGrants out with
    | .error e => .error e
    | .ok out2 => applyGrants rest out2

/-- `views._extract_relevant_bucket_access_requests`, with the storage list
passed in explicitly. -/
def _extract_relevant_bucket_access_requests (disc : List String)
    (current_principal current_workspace_name : String)
    (storage_items : List StorageItem) : Except String (List BucketAccessRequest) :=
  match extractExplicit disc current_principal storage_items with
  | .error e => .error e
  | .ok o1 =>
    match extractImplicit disc current_principal current_workspace_name storage_items
        (o1.map (fun bar => bar.bucket)) with
    | .error e => .error e
    | .ok (o2, _) => applyGrants storage_items (o1 ++ o2)

/-! ## Write path: the Storage patch computed by `update_workspace` -/

/-- A JSON dict value distinguishing an absent key from an explicit null
(needed to model `dict.setdefault`). -/
inductive KeyVal where
  | absent
  | null
  | val (s : String)
deriving DecidableEq

/-- An element of the stored `bucketAccessRequests` list as mutated by
`update_workspace`. -/
structure StoredReq where
  bucketName : Option String
  reason : Option String
  requestedAt : KeyVal
deriving DecidableEq

/-- The `permission` value of a stored grant: either whatever string (or
null) the record held, or a `BucketPermission` member written by the engine. -/
inductive PermVal where
  | raw (s : Option String)
  | enum (p : BucketPermission)
deriving DecidableEq

/-- An element of the stored `bucketAccessGrants` list as mutated by
`update_workspace`. -/
structure StoredGrant where
  bucketName : Option String
  grantee : Option String
  permission : PermVal
  grantedAt : Option String
deriving DecidableEq

/-- The mutable portion of the Storage spec assembled by `update_workspace`
into the merge patch. -/
structure UpdateState where
  buckets : List BucketEntry
  requests : List (JsonEntry StoredReq)
  grants : List (JsonEntry StoredGrant)
deriving DecidableEq

/-- `views._bucketname_from`. -/
def _bucketname_from (b : BucketEntry) : Option String :=
  _get_first [b.bucketName, b.bucket]

/-- The key under which a bucket entry appears in `existing_names`. -/
def bucketKey (b : BucketEntry) : String := (_bucketname_from b).getD ""

/-- The add-buckets loop of `update_workspace`: `existing_names` is computed
once from the pre-update list and not refreshed while appending. -/
def addBucketsToList (names : List String) (buckets : List BucketEntry) :
    List BucketEntry :=
  let existing_names := buckets.map bucketKey
  names.foldl
    (fun acc bname =>
      if bname ∈ existing_names then acc
      else acc ++ [{ bucketName := some bname, bucket := none, discoverable := .bool true }])
    buckets

/-- The key of a stored request in `req_by_bucket` (non-dict entries are not
keyed). -/
def reqKey : JsonEntry StoredReq → Option String
  | .nondict => none
  | .dict r => some (stripOpt r.bucketName)

/-- Whether `req_by_bucket` has an entry for `bucket`. -/
def hasReqKey (requests : List (JsonEntry StoredReq)) (bucket : String) : Bool :=
  requests.any (fun e => reqKey e = some bucket)

/-- `dict.setdefault("requestedAt", ts)` on a stored request. -/
def setdefaultRequestedAt (ts : KeyVal) (r : StoredReq) : StoredReq :=
  match r.requestedAt with
  | .absent => { r with requestedAt := ts }
  | _ => r

/-- Apply `setdefault` to the last dict entry keyed `bucket`: that entry is
the one `req_by_bucket` maps the key to. -/
def updateLastReq (bucket : String) (ts : KeyVal) :
    List (JsonEntry StoredReq) → List (JsonEntry StoredReq)
  | [] => []
  | e :: rest =>
    if hasReqKey rest bucket then e :: updateLastReq bucket ts rest
    else
      match e with
      | .dict r =>
        if stripOpt r.bucketName = bucket then .dict (setdefaultRequestedAt ts r) :: rest
        else .dict r :: rest
      | .nondict => .nondict :: rest

/-- The key of a stored grant in `gr_by_key`. -/
def grKey : JsonEntry StoredGrant → Option (String × String)
  | .nondict => none
  | .dict g => some (stripOpt g.bucketName, stripOpt g.grantee)

/-- Whether `gr_by_key` has an entry for `key`. -/
def hasGrKey (grants : List (JsonEntry StoredGrant)) (key : String × String) : Bool :=
  grants.any (fun e => grKey e = some key)

/-- Overwrite permission and timestamp on the last dict entry keyed `key`
(the one `gr_by_key` maps the key to). -/
def updateLastGrant (key : String × String) (perm : BucketPermission) (ga : String) :
    List (JsonEntry StoredGrant) → List (JsonEntry StoredGrant)
  | [] => []
  | e :: rest =>
    if hasGrKey rest key then e :: updateLastGrant key perm ga rest
    else
      match e with
      | .dict g =>
        if (stripOpt g.bucketName, stripOpt g.grantee) = key then
          .dict { g with permission := .enum perm, grantedAt := some ga } :: rest
        else .dict g :: rest
      | .nondict => .nondict :: rest

/-- Conversion of an assigned timestamp value into a stored JSON value. -/
def kvOf : Option String → KeyVal
  | none => .null
  | some s => .val s

/-- The grant/denial decision of a patch op: the `if p.denied_timestamp /
elif p.grant_timestamp / else continue` chain of `update_workspace`
(datetimes are truthy whenever present).  `_perm_from_str` applied to a
`BucketPermission` member operates on its `.value` string. -/
def grantDecision (p : BucketAccessRequest) : Option (BucketPermission × String) :=
  match p.denied_timestamp with
  | some d => some (.NONE, d)
  | none =>
    match p.grant_timestamp with
    | some t => some (_perm_from_str (some (bucketPermissionValue p.permission)), t)
    | none => none

/-- Errors of the write path (HTTP 400s raised inside the patch loop). -/
inductive UpdateError where
  | invalid_workspace (w : String)
  | missing_principal (w : String)
deriving DecidableEq

/-- One iteration of the `patch_bucket_access_requests` loop of
`update_workspace`.  `store` resolves a workspace name to the spec of its
Storage record (the `storage_api.get` call for the grantee). -/
def applyPatchOp (workspace_name : String) (store : String → Option StorageSpec)
    (st : UpdateState) (p : BucketAccessRequest) : Except UpdateError UpdateState :=
  if pyStrip p.bucket = "" then .ok st
  else if p.workspace = workspace_name then
    if hasReqKey st.requests (pyStrip p.bucket) then
      .ok { st with requests := (updateLastReq (pyStrip p.bucket)
        (kvOf (_iso p.request_timestamp)) st.requests) }
    else
      .ok { st with requests := st.requests ++
        [.dict { bucketName := some (pyStrip p.bucket)
                 reason := some "requesting access"
                 requestedAt := kvOf (_iso p.request_timestamp) }] }
  else
    match store p.workspace with
    | none => .error (.invalid_workspace p.workspace)
    | some grantee_storage_spec =>
      if stripOpt grantee_storage_spec.principal = "" then
        .error (.missing_principal p.workspace)
      else
        match grantDecision p with
        | none => .ok st
        | some (perm, granted_at) =>
          if hasGrKey st.grants (pyStrip p.bucket, stripOpt grantee_storage_spec.principal) then
            .ok { st with grants := (updateLastGrant
              (pyStrip p.bucket, stripOpt grantee_storage_spec.principal)
              perm granted_at st.grants) }
          else
            .ok { st with grants := st.grants ++
              [.dict { bucketName := some (pyStrip p.bucket)
                       grantee := some (stripOpt grantee_storage_spec.principal)
                       permission := .enum perm
                       grantedAt := some granted_at }] }

/-- The whole `patch_bucket_access_requests` loop. -/
def applyPatchOps (workspace_name : String) (store : String → Option StorageSpec)
    (ops : List BucketAccessRequest) (st : UpdateState) : Except UpdateError UpdateState :=
  match ops with
  | [] => .ok st
  | p :: rest =>
    match applyPatchOp workspace_name store st p with
    | .error e => .error e
    | .ok st1 => applyPatchOps workspace_name store rest st1

/-! ## `WorkspaceEdit` input validation (`models.py`) -/

/-- The raw JSON payload of one element of `patch_bucket_access_requests`,
before pydantic validation. -/
structure BucketAccessRequestInput where
  workspace : String
  bucket : String
  permission : BucketPermission
  request_timestamp : Option String
  grant_timestamp : Option String
  denied_timestamp : Option String
deriving DecidableEq

/-- pydantic validation of one `BucketAccessRequest` payload element. -/
def validateBucketAccessRequestInput (r : BucketAccessRequestInput) :
    Except String BucketAccessRequest :=
  mkBucketAccessRequest r.workspace r.bucket r.permission
    r.request_timestamp r.grant_timestamp r.denied_timestamp none

/-- The dedup key used by `WorkspaceEdit._require_min_fields_and_dedup`. -/
def tripleKey (r : BucketAccessRequest) : String × String × Option String :=
  (r.workspace, r.bucket, r.request_timestamp)

/-- `deduped[key] = r` on the insertion-ordered dict modelled as an
association list: an existing key keeps its position but gets the new value,
a new key goes to the back. -/
def dedupInsert (key : String × String × Option String) (r : BucketAccessRequest) :
    List ((String × String × Option String) × BucketAccessRequest) →
    List ((String × String × Option String) × BucketAccessRequest)
  | [] => [(key, r)]
  | (k, v) :: rest =>
    if k = key then (k, r) :: rest else (k, v) :: dedupInsert key r rest

/-- The loop of `WorkspaceEdit._require_min_fields_and_dedup`. -/
def requireAndDedup : List BucketAccessRequest →
    List ((String × String × Option String) × BucketAccessRequest) →
    Except String (List BucketAccessRequest)
  | [], acc => .ok (acc.map Prod.snd)
  | r :: rest, acc =>
    if r.workspace = "" ∨ r.bucket = "" ∨ r.request_timestamp = none then
      .error "patch_bucket_access_requests must set workspace, bucket, request_timestamp"
    else requireAndDedup rest (dedupInsert (tripleKey r) r acc)

/-- `WorkspaceEdit._require_min_fields_and_dedup`. -/
def _require_min_fields_and_dedup (items : List BucketAccessRequest) :
    Except String (List BucketAccessRequest) :=
  requireAndDedup items []

/-- The validated `WorkspaceEdit` payload (the fields the storage patch uses;
`add_memberships`/`add_databases` only feed the Datalab patch, which no claim
concerns). -/
structure WorkspaceEdit where
  add_buckets : List String
  patch_bucket_access_requests : List BucketAccessRequest
deriving DecidableEq

/-- The raw `WorkspaceEdit` payload before validation. -/
structure WorkspaceEditInput where
  add_buckets : List String
  patch_bucket_access_requests : List BucketAccessRequestInput
deriving DecidableEq

/-- Element-wise fallible validation of a list, aborting at the first raised
error (pydantic validates list elements in order). -/
def exceptMapM {α β : Type} (f : α → Except String β) : List α → Except String (List β)
  | [] => .ok []
  | x :: rest =>
    match f x with
    | .error e => .error e
    | .ok v =>
      match exceptMapM f rest with
      | .error e => .error e
      | .ok vs => .ok (v :: vs)

/-- pydantic validation of a `WorkspaceEdit` payload: element-wise model
validation, then `_check_buckets` on `add_buckets`, then
`_require_min_fields_and_dedup` on the patch list.  Any raised `ValueError`
rejects the whole edit (HTTP 422) before the request handler runs. -/
def validateWorkspaceEdit (raw : WorkspaceEditInput) : Except String WorkspaceEdit :=
  match exceptMapM _validate_bucket_name raw.add_buckets with
  | .error e => .error e
  | .ok bs =>
    match exceptMapM validateBucketAccessRequestInput raw.patch_bucket_access_requests with
    | .error e => .error e
    | .ok vs =>
      match _require_min_fields_and_dedup vs with
      | .error e => .error e
      | .ok ps => .ok { add_buckets := bs, patch_bucket_access_requests := ps }

/-- The Storage-patch portion of `update_workspace`: the add-buckets loop
followed by the patch-ops loop, producing the spec lists submitted as the
merge patch (the handler only runs on a validated `WorkspaceEdit`). -/
def update_workspace_storage (workspace_name : String)
    (store : String → Option StorageSpec) (update : WorkspaceEdit)
    (st : UpdateState) : Except UpdateError UpdateState :=
  applyPatchOps workspace_name store update.patch_bucket_access_requests
    { st with buckets := addBucketsToList update.add_buckets st.buckets }

/-! ## Basic lemmas about the string helpers -/

theorem dropWhile_eq_self_of_prefix {α : Type} {p : α → Bool} {m m' : List α}
    (hm : m.dropWhile p = m) (hpre : m' <+: m) : m'.dropWhile p = m' := by
  cases m' with
  | nil => rfl
  | cons x xs =>
    obtain ⟨t, ht⟩ := hpre
    subst ht
    cases hx : p x with
    | false => simp [List.dropWhile, hx]
    | true =>
      exfalso
      rw [List.cons_append] at hm
      simp only [List.dropWhile, hx] at hm
      have hle := (List.dropWhile_suffix (l := xs ++ t) p).sublist.length_le
      rw [hm] at hle
      simp at hle

theorem pyStrip_idem (s : String) : pyStrip (pyStrip s) = pyStrip s := by
  unfold pyStrip
  congr 1
  have htl : (String.mk (List.rdropWhile isSpaceChar (s.toList.dropWhile isSpaceChar))).toList
      = List.rdropWhile isSpaceChar (s.toList.dropWhile isSpaceChar) := rfl
  rw [htl]
  set p := isSpaceChar
  set m := s.toList.dropWhile p with hm_def
  have hm : m.dropWhile p = m := by
    rw [hm_def]
    exact List.dropWhile_idempotent p s.toList
  have hpre : List.rdropWhile p m <+: m := List.rdropWhile_prefix p m
  have h1 : (List.rdropWhile p m).dropWhile p = List.rdropWhile p m :=
    dropWhile_eq_self_of_prefix hm hpre
  rw [h1]
  exact List.rdropWhile_idempotent p m

theorem pyStrip_stripOpt (o : Option String) : pyStrip (stripOpt o) = stripOpt o :=
  pyStrip_idem _

/-- The timestamp pipeline accepts an absent value unchanged. -/
theorem parseTs_none : parseTs none = .ok none := rfl

/-- A successful `parseTs` of an absent value is `none`. -/
theorem parseTs_none_inv {v : Option String} (h : parseTs none = .ok v) : v = none := by
  rw [parseTs_none] at h
  exact (Except.ok.injEq _ _ ▸ h).symm

/-- Fields of a successfully validated `BucketAccessRequest`. -/
theorem mkBucketAccessRequest_ok_fields {ws b : String} {perm : BucketPermission}
    {rt gt dt tag : Option String} {e : BucketAccessRequest}
    (h : mkBucketAccessRequest ws b perm rt gt dt tag = .ok e) :
    e.workspace = pyStrip ws ∧ e.bucket = pyStrip (pyStrip b) ∧ e.permission = perm ∧
    parseTs rt = .ok e.request_timestamp ∧ parseTs gt = .ok e.grant_timestamp ∧
    parseTs dt = .ok e.denied_timestamp ∧ e._principal = tag := by
  simp only [mkBucketAccessRequest, _validate_bucket_name] at h
  by_cases h1 : pyStrip ws = ""
  · simp [h1] at h
  · by_cases h2 : pyStrip b = ""
    · simp [h1, h2] at h
    · by_cases h3 : _is_s3_bucket_name (pyStrip (pyStrip b))
      · simp only [h1, h2, h3, if_neg, if_pos, if_true, if_false, ite_true, ite_false,
          reduceIte] at h
        cases hrt : parseTs rt with
        | error e0 => rw [hrt] at h; simp at h
        | ok rtv =>
          rw [hrt] at h
          cases hgt : parseTs gt with
          | error e0 => rw [hgt] at h; simp at h
          | ok gtv =>
            rw [hgt] at h
            cases hdt : parseTs dt with
            | error e0 => rw [hdt] at h; simp at h
            | ok dtv =>
              rw [hdt] at h
              simp only [Except.ok.injEq] at h
              subst h
              simp
      · simp [h1, h2, h3] at h

/-- Membership facts about pass 1, inner loop: every produced entry carries
the record's workspace name and principal tag and has no grant or denial
timestamp yet. -/
theorem extractRequestsOfRecord_mem {disc : List String} {curP wn pr : String}
    {reqs : List (JsonEntry RawRequest)} {l : List BucketAccessRequest}
    (h : extractRequestsOfRecord disc curP wn pr reqs = .ok l) :
    ∀ e ∈ l, e.workspace = pyStrip wn ∧ e._principal = some pr ∧
      e.grant_timestamp = none ∧ e.denied_timestamp = none := by
  induction reqs generalizing l with
  | nil =>
    simp only [extractRequestsOfRecord] at h
    cases h
    simp
  | cons ent rest ih =>
    cases ent with
    | nondict =>
      simp only [extractRequestsOfRecord] at h
      exact ih h
    | dict r =>
      simp only [extractRequestsOfRecord] at h
      split at h
      · exact ih h
      · split at h
        · exact ih h
        · split at h
          · exact ih h
          · cases hmk : mkBucketAccessRequest wn (stripOpt r.bucketName)
                (permFromReason (pyLower (stripOpt r.reason)))
                r.requestedAt none none (some pr) with
            | error e0 =>
              rw [hmk] at h
              simp at h
            | ok req =>
              rw [hmk] at h
              cases hrec : extractRequestsOfRecord disc curP wn pr rest with
              | error e0 => rw [hrec] at h; simp at h
              | ok more =>
                rw [hrec] at h
                simp only [Except.ok.injEq] at h
                subst h
                intro e he
                cases he with
                | head =>
                  obtain ⟨hw, _, _, _, hg, hd, hp⟩ := mkBucketAccessRequest_ok_fields hmk
                  exact ⟨hw, hp, parseTs_none_inv hg, parseTs_none_inv hd⟩
                | tail _ hm => exact ih hrec e hm

/-- Membership facts about pass 1, outer loop. -/
theorem extractExplicit_mem {disc : List String} {curP : String}
    {items : List StorageItem} {l : List BucketAccessRequest}
    (h : extractExplicit disc curP items = .ok l) :
    ∀ e ∈ l, e.grant_timestamp = none ∧ e.denied_timestamp = none := by
  induction items generalizing l with
  | nil =>
    simp only [extractExplicit] at h
    cases h
    simp
  | cons item rest ih =>
    simp only [extractExplicit] at h
    split at h
    · exact ih h
    · cases hhere : extractRequestsOfRecord disc curP (stripOpt item.name)
          (stripOpt item.spec.principal) item.spec.bucketAccessRequests with
      | error e0 => rw [hhere] at h; simp at h
      | ok here =>
        rw [hhere] at h
        cases hrest : extractExplicit disc curP rest with
        | error e0 => rw [hrest] at h; simp at h
        | ok more =>
          rw [hrest] at h
          simp only [Except.ok.injEq] at h
          subst h
          intro e he
          rcases List.mem_append.mp he with hm | hm
          · obtain ⟨_, _, hg, hd⟩ := extractRequestsOfRecord_mem hhere e hm
            exact ⟨hg, hd⟩
          · exact ih hrest e hm

/-- Shape of an implicit (pass 2) entry relative to the existing-names set
`ex` it was checked against. -/
def implicitShape (disc ex : List String) (curP curW : String)
    (e : BucketAccessRequest) : Prop :=
  e.workspace = pyStrip curW ∧ e.permission = .READ_WRITE ∧
  e.request_timestamp = none ∧ e.grant_timestamp = none ∧ e.denied_timestamp = none ∧
  e._principal = some curP ∧ e.bucket ∉ ex ∧ e.bucket ∉ disc

/-- Pass 2, inner loop: the produced entries have pairwise distinct bucket
names, none of which was in `ex` or in `disc`, all fields are the synthesized
ones, and the set evolves by exactly the produced buckets. -/
theorem extractImplicitBuckets_spec {disc : List String} {curP curW : String}
    {bs : List (JsonEntry BucketEntry)} {ex ex' : List String}
    {l : List BucketAccessRequest}
    (h : extractImplicitBuckets disc curP curW bs ex = .ok (l, ex')) :
    ex' = (l.map (fun e => e.bucket)).reverse ++ ex ∧
    (l.map (fun e => e.bucket)).Nodup ∧
    ∀ e ∈ l, implicitShape disc ex curP curW e := by
  induction bs generalizing ex ex' l with
  | nil =>
    simp only [extractImplicitBuckets] at h
    cases h
    simp
  | cons ent rest ih =>
    cases ent with
    | nondict =>
      simp only [extractImplicitBuckets] at h
      exact ih h
    | dict b =>
      simp only [extractImplicitBuckets] at h
      split at h
      · exact ih h
      · split at h
        · exact ih h
        · rename_i hskip
          push_neg at hskip
          obtain ⟨hne, hnex, hndisc⟩ := hskip
          cases hmk : mkBucketAccessRequest curW (stripOpt b.bucketName) .READ_WRITE
              none none none (some curP) with
          | error e0 => rw [hmk] at h; simp at h
          | ok req =>
            rw [hmk] at h
            cases hrec : extractImplicitBuckets disc curP curW rest
                (stripOpt b.bucketName :: ex) with
            | error e0 => rw [hrec] at h; simp at h
            | ok p =>
              obtain ⟨more, ex2⟩ := p
              rw [hrec] at h
              simp only [Except.ok.injEq, Prod.mk.injEq] at h
              obtain ⟨hl, hex⟩ := h
              subst hl
              subst hex
              obtain ⟨hex2, hnodup, hshape⟩ := ih hrec
              obtain ⟨hw, hbk, hperm, hrt, hg, hd, hp⟩ := mkBucketAccessRequest_ok_fields hmk
              have hbk' : req.bucket = stripOpt b.bucketName := by
                rw [hbk, pyStrip_stripOpt, pyStrip_stripOpt]
              refine ⟨?_, ?_, ?_⟩
              · rw [hex2]
                simp [hbk']
              · simp only [List.map_cons, List.nodup_cons]
                constructor
                · intro hmem
                  obtain ⟨e, hem, hebk⟩ := List.mem_map.mp hmem
                  have := (hshape e hem).2.2.2.2.2.2.1
                  rw [hebk, hbk'] at this
                  exact this (List.mem_cons_self _ _)
                · exact hnodup
              · intro e he
                cases he with
                | head =>
                  refine ⟨hw, hperm, parseTs_none_inv hrt, parseTs_none_inv hg,
                    parseTs_none_inv hd, hp, ?_, ?_⟩
                  · rw [hbk']; exact hnex
                  · rw [hbk']; exact hndisc
                | tail _ hm =>
                  obtain ⟨h1, h2, h3, h4, h5, h6, h7, h8⟩ := hshape e hm
                  exact ⟨h1, h2, h3, h4, h5, h6,
                    fun hc => h7 (List.mem_cons_of_mem _ hc), h8⟩

/-- Pass 2, outer loop: same facts accumulated over all records. -/
theorem extractImplicit_spec {disc : List String} {curP curW : String}
    {items : List StorageItem} {ex ex' : List String}
    {l : List BucketAccessRequest}
    (h : extractImplicit disc curP curW items ex = .ok (l, ex')) :
    ex' = (l.map (fun e => e.bucket)).reverse ++ ex ∧
    (l.map (fun e => e.bucket)).Nodup ∧
    ∀ e ∈ l, implicitShape disc ex curP curW e := by
  induction items generalizing ex ex' l with
  | nil =>
    simp only [extractImplicit] at h
    cases h
    simp
  | cons item rest ih =>
    simp only [extractImplicit] at h
    cases hhere : extractImplicitBuckets disc curP curW item.spec.buckets ex with
    | error e0 => rw [hhere] at h; simp at h
    | ok p =>
      obtain ⟨here, ex1⟩ := p
      rw [hhere] at h
      dsimp only at h
      cases hrest : extractImplicit disc curP curW rest ex1 with
      | error e0 => rw [hrest] at h; simp at h
      | ok q =>
        obtain ⟨more, ex2⟩ := q
        rw [hrest] at h
        simp only [Except.ok.injEq, Prod.mk.injEq] at h
        obtain ⟨hl, hex⟩ := h
        subst hl
        subst hex
        obtain ⟨hex1, hnd1, hsh1⟩ := extractImplicitBuckets_spec hhere
        obtain ⟨hex2, hnd2, hsh2⟩ := ih hrest
        refine ⟨?_, ?_, ?_⟩
        · rw [hex2, hex1]
          simp [List.append_assoc]
        · rw [List.map_append]
          rw [List.nodup_append]
          refine ⟨hnd1, hnd2, ?_⟩
          intro x hx1 hx2
          obtain ⟨e, hem, hebk⟩ := List.mem_map.mp hx2
          have := (hsh2 e hem).2.2.2.2.2.2.1
          rw [hex1, hebk] at this
          exact this (List.mem_append.mpr (Or.inl (List.mem_reverse.mpr (hebk ▸ hx1))))
        · intro e he
          rcases List.mem_append.mp he with hm | hm
          · exact hsh1 e hm
          · obtain ⟨h1, h2, h3, h4, h5, h6, h7, h8⟩ := hsh2 e hm
            refine ⟨h1, h2, h3, h4, h5, h6, ?_, h8⟩
            intro hc
            exact h7 (by rw [hex1]; exact List.mem_append.mpr (Or.inr hc))

/-- The existing-names set only grows in pass 2 (inner loop). -/
theorem extractImplicitBuckets_ex_mono {disc : List String} {curP curW : String}
    {bs : List (JsonEntry BucketEntry)} {ex ex' : List String}
    {l : List BucketAccessRequest}
    (h : extractImplicitBuckets disc curP curW bs ex = .ok (l, ex')) : ex ⊆ ex' := by
  rw [(extractImplicitBuckets_spec h).1]
  exact List.subset_append_right _ _

/-- The existing-names set only grows in pass 2 (outer loop). -/
theorem extractImplicit_ex_mono {disc : List String} {curP curW : String}
    {items : List StorageItem} {ex ex' : List String}
    {l : List BucketAccessRequest}
    (h : extractImplicit disc curP curW items ex = .ok (l, ex')) : ex ⊆ ex' := by
  rw [(extractImplicit_spec h).1]
  exact List.subset_append_right _ _

/-- Whether a bucket-list element is a dict describing a discoverable bucket
whose stripped name is `b`. -/
def bucketEntryNamed (b : String) : JsonEntry BucketEntry → Bool
  | .nondict => false
  | .dict bb => _as_bool bb.discoverable && stripOpt bb.bucketName == b

/-- Whether a record owns a discoverable bucket whose stripped name is `b`. -/
def discoverableBucketNamed (b : String) (item : StorageItem) : Bool :=
  item.spec.buckets.any (bucketEntryNamed b)

/-- Pass 2, inner loop: a qualifying discoverable bucket name not in `disc`
ends up in the existing-names set. -/
theorem extractImplicitBuckets_covers {disc : List String} {curP curW b : String}
    {bs : List (JsonEntry BucketEntry)} {ex ex' : List String}
    {l : List BucketAccessRequest}
    (h : extractImplicitBuckets disc curP curW bs ex = .ok (l, ex'))
    (hq : bs.any (bucketEntryNamed b) = true)
    (hb : b ≠ "") (hnd : b ∉ disc) : b ∈ ex' := by
  induction bs generalizing ex ex' l with
  | nil => simp at hq
  | cons ent rest ih =>
    cases ent with
    | nondict =>
      simp only [extractImplicitBuckets] at h
      simp only [List.any_cons, bucketEntryNamed, Bool.false_or] at hq
      exact ih h hq
    | dict bb =>
      simp only [List.any_cons] at hq
      simp only [extractImplicitBuckets] at h
      split at h
      · rename_i hflag
        have hq' : rest.any (bucketEntryNamed b) = true := by
          rcases Bool.or_eq_true_iff.mp hq with h1 | h1
          · exfalso
            simp only [bucketEntryNamed, Bool.and_eq_true] at h1
            exact hflag h1.1
          · exact h1
        exact ih h hq'
      · split at h
        · rename_i hflag hskip
          by_cases hmatch : stripOpt bb.bucketName = b
          · rcases hskip with h1 | h1 | h1
            · exact absurd (hmatch ▸ h1) hb
            · exact extractImplicitBuckets_ex_mono h (hmatch ▸ h1)
            · exact absurd (hmatch ▸ h1) hnd
          · have hq' : rest.any (bucketEntryNamed b) = true := by
              rcases Bool.or_eq_true_iff.mp hq with h1 | h1
              · exfalso
                simp only [bucketEntryNamed, Bool.and_eq_true, beq_iff_eq] at h1
                exact hmatch h1.2
              · exact h1
            exact ih h hq'
        · rename_i hflag hskip
          cases hmk : mkBucketAccessRequest curW (stripOpt bb.bucketName) .READ_WRITE
              none none none (some curP) with
          | error e0 => rw [hmk] at h; simp at h
          | ok req =>
            rw [hmk] at h
            cases hrec : extractImplicitBuckets disc curP curW rest
                (stripOpt bb.bucketName :: ex) with
            | error e0 => rw [hrec] at h; simp at h
            | ok p =>
              obtain ⟨more, ex2⟩ := p
              rw [hrec] at h
              simp only [Except.ok.injEq, Prod.mk.injEq] at h
              obtain ⟨hl, hex⟩ := h
              subst hex
              by_cases hmatch : stripOpt bb.bucketName = b
              · exact extractImplicitBuckets_ex_mono hrec (hmatch ▸ List.mem_cons_self _ _)
              · have hq' : rest.any (bucketEntryNamed b) = true := by
                  rcases Bool.or_eq_true_iff.mp hq with h1 | h1
                  · exfalso
                    simp only [bucketEntryNamed, Bool.and_eq_true, beq_iff_eq] at h1
                    exact hmatch h1.2
                  · exact h1
                exact ih hrec hq'

/-- Pass 2, outer loop: a qualifying discoverable bucket name of any record,
not among `disc`, ends up in the final existing-names set. -/
theorem extractImplicit_covers {disc : List String} {curP curW b : String}
    {items : List StorageItem} {ex ex' : List String}
    {l : List BucketAccessRequest}
    (h : extractImplicit disc curP curW items ex = .ok (l, ex'))
    (hq : items.any (discoverableBucketNamed b) = true)
    (hb : b ≠ "") (hnd : b ∉ disc) : b ∈ ex' := by
  induction items generalizing ex ex' l with
  | nil => simp at hq
  | cons item rest ih =>
    simp only [List.any_cons] at hq
    simp only [extractImplicit] at h
    cases hhere : extractImplicitBuckets disc curP curW item.spec.buckets ex with
    | error e0 => rw [hhere] at h; simp at h
    | ok p =>
      obtain ⟨here, ex1⟩ := p
      rw [hhere] at h
      dsimp only at h
      cases hrest : extractImplicit disc curP curW rest ex1 with
      | error e0 => rw [hrest] at h; simp at h
      | ok q =>
        obtain ⟨more, ex2⟩ := q
        rw [hrest] at h
        simp only [Except.ok.injEq, Prod.mk.injEq] at h
        obtain ⟨hl, hex⟩ := h
        subst hex
        rcases Bool.or_eq_true_iff.mp hq with h1 | h1
        · exact extractImplicit_ex_mono hrest
            (extractImplicitBuckets_covers hhere h1 hb hnd)
        · exact ih hrest h1

/-- The fields of a derived entry that grant folding never modifies. -/
def skel (e : BucketAccessRequest) :
    String × String × BucketPermission × Option String :=
  (e.workspace, e.bucket, e.permission, e._principal)

theorem skel_fields {e f : BucketAccessRequest} (h : skel e = skel f) :
    e.workspace = f.workspace ∧ e.bucket = f.bucket ∧
    e.permission = f.permission ∧ e._principal = f._principal := by
  simp only [skel, Prod.mk.injEq] at h
  exact ⟨h.1, h.2.1, h.2.2.1, h.2.2.2⟩

/-- Inversion of one step of the grant fold. -/
theorem applyGrantToList_cases {gr b ga : String} {ra pm : Option String}
    {l l' : List BucketAccessRequest}
    (h : applyGrantToList gr b ga ra pm l = .ok l') :
    (l = [] ∧ l' = []) ∨
    (∃ e rest rt gt dt, l = e :: rest ∧
      (e.bucket = b ∧ e._principal = some gr) ∧
      parseTs (pyOrStr ra (some ga)) = .ok rt ∧
      parseTs (if _perm_from_str pm ≠ .NONE then some ga else none) = .ok gt ∧
      parseTs (if _perm_from_str pm = .NONE then some ga else none) = .ok dt ∧
      l' = { e with request_timestamp := rt, grant_timestamp := gt, denied_timestamp := dt } :: rest) ∨
    (∃ e rest rest', l = e :: rest ∧ ¬ (e.bucket = b ∧ e._principal = some gr) ∧
      applyGrantToList gr b ga ra pm rest = .ok rest' ∧ l' = e :: rest') := by
  cases l with
  | nil =>
    left
    simp only [applyGrantToList, Except.ok.injEq] at h
    exact ⟨rfl, h.symm⟩
  | cons e rest =>
    simp only [applyGrantToList] at h
    split at h
    · rename_i hcond
      right
      left
      cases hrt : parseTs (pyOrStr ra (some ga)) with
      | error err => rw [hrt] at h; simp at h
      | ok rt =>
        rw [hrt] at h
        cases hgt : parseTs (if _perm_from_str pm ≠ .NONE then some ga else none) with
        | error err => rw [hgt] at h; simp at h
        | ok gt =>
          rw [hgt] at h
          cases hdt : parseTs (if _perm_from_str pm = .NONE then some ga else none) with
          | error err => rw [hdt] at h; simp at h
          | ok dt =>
            rw [hdt] at h
            simp only [Except.ok.injEq] at h
            exact ⟨e, rest, rt, gt, dt, rfl, hcond, rfl, rfl, rfl, h.symm⟩
    · rename_i hcond
      right
      right
      cases hrec : applyGrantToList gr b ga ra pm rest with
      | error err => rw [hrec] at h; simp at h
      | ok rest2 =>
        rw [hrec] at h
        simp only [Except.ok.injEq] at h
        exact ⟨e, rest, rest2, rfl, hcond, hrec, h.symm⟩

theorem applyGrantToList_map_skel {gr b ga : String} {ra pm : Option String} :
    ∀ {l l' : List BucketAccessRequest},
    applyGrantToList gr b ga ra pm l = .ok l' → l'.map skel = l.map skel := by
  intro l
  induction l with
  | nil =>
    intro l' h
    simp only [applyGrantToList, Except.ok.injEq] at h
    subst h
    rfl
  | cons e0 rest ih =>
    intro l' h
    rcases applyGrantToList_cases h with ⟨hc, _⟩ | hm | hskip
    · cases hc
    · obtain ⟨e, rest2, rt, gt, dt, hl1, hcond, hrt, hgt, hdt, hl2⟩ := hm
      injection hl1 with he hrest
      subst he
      subst hrest
      subst hl2
      simp [skel]
    · obtain ⟨e, rest2, rest', hl1, hcond, hrec, hl2⟩ := hskip
      injection hl1 with he hrest
      subst he
      subst hrest
      subst hl2
      simp only [List.map_cons, ih hrec]

theorem applyGrantEntry_inv {out l' : List BucketAccessRequest}
    {ge : JsonEntry RawGrant} (h : applyGrantEntry out ge = .ok l') :
    l' = out ∨
    ∃ g s, ge = .dict g ∧ stripOpt g.grantee ≠ "" ∧ stripOpt g.bucketName ≠ "" ∧
      pyOrStr g.grantedAt g.granted_at = some s ∧ s ≠ "" ∧
      applyGrantToList (stripOpt g.grantee) (stripOpt g.bucketName) s
        g.requestedAt g.permission out = .ok l' := by
  cases ge with
  | nondict =>
    left
    simp only [applyGrantEntry, Except.ok.injEq] at h
    exact h.symm
  | dict g =>
    simp only [applyGrantEntry] at h
    split at h
    · left
      simp only [Except.ok.injEq] at h
      exact h.symm
    · rename_i hne
      push_neg at hne
      cases hor : pyOrStr g.grantedAt g.granted_at with
      | none =>
        rw [hor] at h
        left
        simp only [Except.ok.injEq] at h
        exact h.symm
      | some sv =>
        rw [hor] at h
        dsimp only at h
        split at h
        · left
          simp only [Except.ok.injEq] at h
          exact h.symm
        · rename_i hs
          right
          exact ⟨g, sv, rfl, hne.1, hne.2, hor, hs, h⟩

theorem applyGrantEntry_map_skel {out l' : List BucketAccessRequest}
    {ge : JsonEntry RawGrant} (h : applyGrantEntry out ge = .ok l') :
    l'.map skel = out.map skel := by
  rcases applyGrantEntry_inv h with h1 | ⟨g, sv, _, _, _, _, _, h1⟩
  · rw [h1]
  · exact applyGrantToList_map_skel h1

theorem applyGrantsOfRecord_map_skel :
    ∀ {gs : List (JsonEntry RawGrant)} {l l' : List BucketAccessRequest},
    applyGrantsOfRecord gs l = .ok l' → l'.map skel = l.map skel := by
  intro gs
  induction gs with
  | nil =>
    intro l l' h
    simp only [applyGrantsOfRecord, Except.ok.injEq] at h
    subst h
    rfl
  | cons ge rest ih =>
    intro l l' h
    simp only [applyGrantsOfRecord] at h
    cases hge : applyGrantEntry l ge with
    | error err => rw [hge] at h; simp at h
    | ok l2 =>
      rw [hge] at h
      exact (ih h).trans (applyGrantEntry_map_skel hge)

theorem applyGrants_map_skel :
    ∀ {items : List StorageItem} {l l' : List BucketAccessRequest},
    applyGrants items l = .ok l' → l'.map skel = l.map skel := by
  intro items
  induction items with
  | nil =>
    intro l l' h
    simp only [applyGrants, Except.ok.injEq] at h
    subst h
    rfl
  | cons item rest ih =>
    intro l l' h
    simp only [applyGrants] at h
    cases hrec : applyGrantsOfRecord item.spec.bucketAccessGrants l with
    | error err => rw [hrec] at h; simp at h
    | ok l2 =>
      rw [hrec] at h
      exact (ih h).trans (applyGrantsOfRecord_map_skel hrec)

/-- Grant folding never changes how many entries carry a given bucket name. -/
theorem applyGrants_countP_bucket {items : List StorageItem}
    {l l' : List BucketAccessRequest} (h : applyGrants items l = .ok l')
    (b : String) :
    l'.countP (fun e => e.bucket == b) = l.countP (fun e => e.bucket == b) := by
  have h2 := congrArg (List.countP (fun t => t.2.1 == b)) (applyGrants_map_skel h)
  rw [List.countP_map, List.countP_map] at h2
  simpa [Function.comp, skel] using h2

/-- At most one of the grant/denied timestamps is set: preserved by a single
grant fold, which always nulls the other side. -/
theorem applyGrantToList_excl {gr b ga : String} {ra pm : Option String} :
    ∀ {l l' : List BucketAccessRequest},
    applyGrantToList gr b ga ra pm l = .ok l' →
    (∀ e ∈ l, e.grant_timestamp = none ∨ e.denied_timestamp = none) →
    ∀ e ∈ l', e.grant_timestamp = none ∨ e.denied_timestamp = none := by
  intro l
  induction l with
  | nil =>
    intro l' h hl
    simp only [applyGrantToList, Except.ok.injEq] at h
    subst h
    simp
  | cons e0 rest ih =>
    intro l' h hl
    rcases applyGrantToList_cases h with ⟨hc, _⟩ | hm | hskip
    · cases hc
    · obtain ⟨e, rest2, rt, gt, dt, hl1, hcond, hrt, hgt, hdt, hl2⟩ := hm
      injection hl1 with he hrest
      subst he
      subst hrest
      subst hl2
      intro f hf
      cases hf with
      | head =>
        by_cases hp : _perm_from_str pm = .NONE
        · rw [if_neg (not_not_intro hp)] at hgt
          left
          simpa using parseTs_none_inv hgt
        · rw [if_neg hp] at hdt
          right
          simpa using parseTs_none_inv hdt
      | tail _ hmem => exact hl _ (List.mem_cons_of_mem _ hmem)
    · obtain ⟨e, rest2, rest', hl1, hcond, hrec, hl2⟩ := hskip
      injection hl1 with he hrest
      subst he
      subst hrest
      subst hl2
      intro f hf
      cases hf with
      | head => exact hl _ (List.mem_cons_self _ _)
      | tail _ hmem =>
        exact ih hrec (fun x hx => hl x (List.mem_cons_of_mem _ hx)) f hmem

theorem applyGrantEntry_excl {out l' : List BucketAccessRequest}
    {ge : JsonEntry RawGrant} (h : applyGrantEntry out ge = .ok l')
    (hl : ∀ e ∈ out, e.grant_timestamp = none ∨ e.denied_timestamp = none) :
    ∀ e ∈ l', e.grant_timestamp = none ∨ e.denied_timestamp = none := by
  rcases applyGrantEntry_inv h with h1 | ⟨g, sv, _, _, _, _, _, h1⟩
  · subst h1
    exact hl
  · exact applyGrantToList_excl h1 hl

theorem applyGrantsOfRecord_excl :
    ∀ {gs : List (JsonEntry RawGrant)} {l l' : List BucketAccessRequest},
    applyGrantsOfRecord gs l = .ok l' →
    (∀ e ∈ l, e.grant_timestamp = none ∨ e.denied_timestamp = none) →
    ∀ e ∈ l', e.grant_timestamp = none ∨ e.denied_timestamp = none := by
  intro gs
  induction gs with
  | nil =>
    intro l l' h hl
    simp only [applyGrantsOfRecord, Except.ok.injEq] at h
    subst h
    exact hl
  | cons ge rest ih =>
    intro l l' h hl
    simp only [applyGrantsOfRecord] at h
    cases hge : applyGrantEntry l ge with
    | error err => rw [hge] at h; simp at h
    | ok l2 =>
      rw [hge] at h
      exact ih h (applyGrantEntry_excl hge hl)

theorem applyGrants_excl :
    ∀ {items : List StorageItem} {l l' : List BucketAccessRequest},
    applyGrants items l = .ok l' →
    (∀ e ∈ l, e.grant_timestamp = none ∨ e.denied_timestamp = none) →
    ∀ e ∈ l', e.grant_timestamp = none ∨ e.denied_timestamp = none := by
  intro items
  induction items with
  | nil =>
    intro l l' h hl
    simp only [applyGrants, Except.ok.injEq] at h
    subst h
    exact hl
  | cons item rest ih =>
    intro l l' h hl
    simp only [applyGrants] at h
    cases hrec : applyGrantsOfRecord item.spec.bucketAccessGrants l with
    | error err => rw [hrec] at h; simp at h
    | ok l2 =>
      rw [hrec] at h
      exact ih h (applyGrantsOfRecord_excl hrec hl)

/-- Whether a grants-list element is a dict grant that passes the skip checks
of pass 3 and matches bucket `b` and principal tag `p`. -/
def grantEntryTargets (b : String) (p : Option String) : JsonEntry RawGrant → Bool
  | .nondict => false
  | .dict g =>
    (stripOpt g.grantee != "") && (stripOpt g.bucketName == b) &&
    (p == some (stripOpt g.grantee)) && truthyStr (pyOrStr g.grantedAt g.granted_at)

/-- Whether any record holds a grant that can attach to an entry with bucket
`b` and principal tag `p`. -/
def grantTargets (items : List StorageItem) (b : String) (p : Option String) : Bool :=
  items.any (fun item => item.spec.bucketAccessGrants.any (grantEntryTargets b p))

theorem applyGrantToList_origin {gr b ga : String} {ra pm : Option String} :
    ∀ {l l' : List BucketAccessRequest},
    applyGrantToList gr b ga ra pm l = .ok l' →
    ∀ e' ∈ l', ∃ e ∈ l, skel e = skel e' ∧
      (e' = e ∨ (e.bucket = b ∧ e._principal = some gr)) := by
  intro l
  induction l with
  | nil =>
    intro l' h
    simp only [applyGrantToList, Except.ok.injEq] at h
    subst h
    simp
  | cons e0 rest ih =>
    intro l' h
    rcases applyGrantToList_cases h with ⟨hc, _⟩ | hm | hskip
    · cases hc
    · obtain ⟨e, rest2, rt, gt, dt, hl1, hcond, hrt, hgt, hdt, hl2⟩ := hm
      injection hl1 with he hrest
      subst he
      subst hrest
      subst hl2
      intro f hf
      cases hf with
      | head => exact ⟨e0, List.mem_cons_self _ _, by simp [skel], Or.inr hcond⟩
      | tail _ hmem => exact ⟨f, List.mem_cons_of_mem _ hmem, rfl, Or.inl rfl⟩
    · obtain ⟨e, rest2, rest', hl1, hcond, hrec, hl2⟩ := hskip
      injection hl1 with he hrest
      subst he
      subst hrest
      subst hl2
      intro f hf
      cases hf with
      | head => exact ⟨e0, List.mem_cons_self _ _, rfl, Or.inl rfl⟩
      | tail _ hmem =>
        obtain ⟨e1, he1, hsk, hor⟩ := ih hrec f hmem
        exact ⟨e1, List.mem_cons_of_mem _ he1, hsk, hor⟩

theorem applyGrantEntry_origin {out l' : List BucketAccessRequest}
    {ge : JsonEntry RawGrant} (h : applyGrantEntry out ge = .ok l') :
    ∀ e' ∈ l', ∃ e ∈ out, skel e = skel e' ∧
      (e' = e ∨ grantEntryTargets e.bucket e._principal ge = true) := by
  rcases applyGrantEntry_inv h with h1 | ⟨g, sv, hge, hg1, hg2, hor, hs, h1⟩
  · subst h1
    intro f hf
    exact ⟨f, hf, rfl, Or.inl rfl⟩
  · subst hge
    intro f hf
    obtain ⟨e, he, hsk, hcase⟩ := applyGrantToList_origin h1 f hf
    refine ⟨e, he, hsk, ?_⟩
    cases hcase with
    | inl hx => exact Or.inl hx
    | inr hx =>
      right
      simp only [grantEntryTargets, Bool.and_eq_true, bne_iff_ne, beq_iff_eq]
      refine ⟨⟨⟨hg1, hx.1.symm⟩, hx.2⟩, ?_⟩
      simp [truthyStr, hor, hs]

theorem applyGrantsOfRecord_origin :
    ∀ {gs : List (JsonEntry RawGrant)} {l l' : List BucketAccessRequest},
    applyGrantsOfRecord gs l = .ok l' →
    ∀ e' ∈ l', ∃ e ∈ l, skel e = skel e' ∧
      (e' = e ∨ gs.any (grantEntryTargets e.bucket e._principal) = true) := by
  intro gs
  induction gs with
  | nil =>
    intro l l' h
    simp only [applyGrantsOfRecord, Except.ok.injEq] at h
    subst h
    intro f hf
    exact ⟨f, hf, rfl, Or.inl rfl⟩
  | cons ge rest ih =>
    intro l l' h
    simp only [applyGrantsOfRecord] at h
    cases hge : applyGrantEntry l ge with
    | error err => rw [hge] at h; simp at h
    | ok l2 =>
      rw [hge] at h
      intro f hf
      obtain ⟨e1, he1, hsk1, hor1⟩ := ih h f hf
      obtain ⟨e, he, hsk, hor⟩ := applyGrantEntry_origin hge e1 he1
      refine ⟨e, he, hsk.trans hsk1, ?_⟩
      cases hor with
      | inl hx =>
        subst hx
        cases hor1 with
        | inl hy => exact Or.inl hy
        | inr hy =>
          right
          simp only [List.any_cons, Bool.or_eq_true]
          exact Or.inr hy
      | inr hx =>
        right
        simp only [List.any_cons, Bool.or_eq_true]
        exact Or.inl hx

theorem applyGrants_origin :
    ∀ {items : List StorageItem} {l l' : List BucketAccessRequest},
    applyGrants items l = .ok l' →
    ∀ e' ∈ l', ∃ e ∈ l, skel e = skel e' ∧
      (e' = e ∨ grantTargets items e.bucket e._principal = true) := by
  intro items
  induction items with
  | nil =>
    intro l l' h
    simp only [applyGrants, Except.ok.injEq] at h
    subst h
    intro f hf
    exact ⟨f, hf, rfl, Or.inl rfl⟩
  | cons item rest ih =>
    intro l l' h
    simp only [applyGrants] at h
    cases hrec : applyGrantsOfRecord item.spec.bucketAccessGrants l with
    | error err => rw [hrec] at h; simp at h
    | ok l2 =>
      rw [hrec] at h
      intro f hf
      obtain ⟨e1, he1, hsk1, hor1⟩ := ih h f hf
      obtain ⟨e, he, hsk, hor⟩ := applyGrantsOfRecord_origin hrec e1 he1
      refine ⟨e, he, hsk.trans hsk1, ?_⟩
      cases hor with
      | inl hx =>
        subst hx
        cases hor1 with
        | inl hy => exact Or.inl hy
        | inr hy =>
          right
          simp only [grantTargets, List.any_cons, Bool.or_eq_true] at hy ⊢
          exact Or.inr hy
      | inr hx =>
        right
        simp only [grantTargets, List.any_cons, Bool.or_eq_true]
        exact Or.inl hx

/-- Decomposition of a successful extraction into its three passes. -/
theorem extract_decomp {disc : List String} {curP curW : String}
    {items : List StorageItem} {out : List BucketAccessRequest}
    (h : _extract_relevant_bucket_access_requests disc curP curW items = .ok out) :
    ∃ o1 o2 ex', extractExplicit disc curP items = .ok o1 ∧
      extractImplicit disc curP curW items (o1.map (fun e => e.bucket)) = .ok (o2, ex') ∧
      applyGrants items (o1 ++ o2) = .ok out := by
  unfold _extract_relevant_bucket_access_requests at h
  cases h1 : extractExplicit disc curP items with
  | error e0 => rw [h1] at h; simp at h
  | ok o1 =>
    rw [h1] at h
    dsimp only at h
    cases h2 : extractImplicit disc curP curW items (o1.map (fun e => e.bucket)) with
    | error e0 => rw [h2] at h; simp at h
    | ok p =>
      obtain ⟨o2, ex'⟩ := p
      rw [h2] at h
      exact ⟨o1, o2, ex', rfl, h2, h⟩

/-- C5: every derived entry has at most one of `grant_timestamp` and
`denied_timestamp` set, and within a successful grant fold the permission
selects exactly which side receives the validated `grantedAt`, the other
being nulled. -/
theorem C5_grant_denied_exclusive (disc : List String) (curP curW : String)
    (items : List StorageItem) (out : List BucketAccessRequest)
    (h : _extract_relevant_bucket_access_requests disc curP curW items = .ok out) :
    (∀ e ∈ out, e.grant_timestamp = none ∨ e.denied_timestamp = none) ∧
    (∀ (gr bn ga : String) (ra pm : Option String)
        (l l' : List BucketAccessRequest) (e : BucketAccessRequest),
        applyGrantToList gr bn ga ra pm l = .ok l' → e ∈ l' → e ∈ l ∨
        ((_perm_from_str pm ≠ .NONE →
            parseTs (some ga) = .ok e.grant_timestamp ∧ e.denied_timestamp = none) ∧
         (_perm_from_str pm = .NONE →
            parseTs (some ga) = .ok e.denied_timestamp ∧ e.grant_timestamp = none))) := by
  constructor
  · obtain ⟨o1, o2, ex', h1, h2, hout⟩ := extract_decomp h
    refine applyGrants_excl hout ?_
    intro e he
    rcases List.mem_append.mp he with hm | hm
    · obtain ⟨hg, _⟩ := extractExplicit_mem h1 e hm
      exact Or.inl hg
    · obtain ⟨_, _, _, hg, _, _, _, _⟩ := (extractImplicit_spec h2).2.2 e hm
      exact Or.inl hg
  · intro gr bn ga ra pm l
    induction l with
    | nil =>
      intro l' e h0 he
      simp only [applyGrantToList, Except.ok.injEq] at h0
      subst h0
      simp at he
    | cons x rest ih =>
      intro l' e h0 he
      rcases applyGrantToList_cases h0 with ⟨hc, _⟩ | hm | hskip
      · cases hc
      · obtain ⟨e1, rest2, rt, gt, dt, hl1, hcond, hrt, hgt, hdt, hl2⟩ := hm
        injection hl1 with h1a h1b
        subst h1a
        subst h1b
        subst hl2
        cases he with
        | head =>
          right
          constructor
          · intro hp
            rw [if_pos hp] at hgt
            rw [if_neg hp] at hdt
            exact ⟨by simpa using hgt, by simpa using parseTs_none_inv hdt⟩
          · intro hp
            rw [if_pos hp] at hdt
            rw [if_neg (not_not_intro hp)] at hgt
            exact ⟨by simpa using hdt, by simpa using parseTs_none_inv hgt⟩
        | tail _ hmem => exact Or.inl (List.mem_cons_of_mem _ hmem)
      · obtain ⟨e1, rest2, rest', hl1, hcond, hrec, hl2⟩ := hskip
        injection hl1 with h1a h1b
        subst h1a
        subst h1b
        subst hl2
        cases he with
        | head => exact Or.inl (List.mem_cons_self _ _)
        | tail _ hmem =>
          rcases ih rest' e hrec hmem with hx | hx
          · exact Or.inl (List.mem_cons_of_mem _ hx)
          · exact Or.inr hx

instance {ε α : Type} [DecidableEq ε] [DecidableEq α] : DecidableEq (Except ε α) :=
  fun a b =>
    match a, b with
    | .error x, .error y =>
      if h : x = y then isTrue (by rw [h]) else isFalse (by intro hc; cases hc; exact h rfl)
    | .error _, .ok _ => isFalse (by intro hc; cases hc)
    | .ok _, .error _ => isFalse (by intro hc; cases hc)
    | .ok x, .ok y =>
      if h : x = y then isTrue (by rw [h]) else isFalse (by intro hc; cases hc; exact h rfl)

theorem countP_map_eq_one_of_nodup {α β : Type} [DecidableEq β] {f : α → β}
    {l : List α} {b : β} (hnd : (l.map f).Nodup) (hm : b ∈ l.map f) :
    l.countP (fun e => f e == b) = 1 := by
  induction l with
  | nil => simp at hm
  | cons x rest ih =>
    simp only [List.map_cons, List.nodup_cons] at hnd
    rw [List.countP_cons]
    by_cases hx : f x = b
    · have hz : rest.countP (fun e => f e == b) = 0 := by
        rw [List.countP_eq_zero]
        intro e he
        simp only [beq_iff_eq]
        intro hbe
        exact hnd.1 (hx ▸ hbe ▸ List.mem_map.mpr ⟨e, he, rfl⟩)
      simp [hz, hx]
    · have hm' : b ∈ rest.map f := by
        rcases List.mem_cons.mp hm with h1 | h1
        · exact absurd h1.symm hx
        · exact h1
      simp [ih hnd.2 hm', hx]

theorem countP_map_le_one_of_nodup {α β : Type} [DecidableEq β] {f : α → β}
    {l : List α} {b : β} (hnd : (l.map f).Nodup) :
    l.countP (fun e => f e == b) ≤ 1 := by
  by_cases hm : b ∈ l.map f
  · rw [countP_map_eq_one_of_nodup hnd hm]
  · have hz : l.countP (fun e => f e == b) = 0 := by
      rw [List.countP_eq_zero]
      intro e he
      simp only [beq_iff_eq]
      intro hbe
      exact hm (List.mem_map.mpr ⟨e, he, hbe⟩)
    omega

/-- C1 (amended): implicit entries are synthesized only for discoverable
buckets that are not among the `discoverable_bucket_names` argument, i.e.
not the target's own; for such a bucket `b`, owned discoverably by any
record and not named by any pass-1 entry, the result holds exactly one entry
with bucket `b`, and it carries the target workspace name, ReadWrite and null
timestamps whenever no recorded grant matches `(b, targetPrincipal)`. -/
theorem C1_implicit_for_foreign_discoverable (disc : List String)
    (curP curW b : String) (items : List StorageItem)
    (o1 out : List BucketAccessRequest)
    (h : _extract_relevant_bucket_access_requests disc curP curW items = .ok out)
    (h1 : extractExplicit disc curP items = .ok o1)
    (hnotexp : b ∉ o1.map (fun e => e.bucket))
    (hq : items.any (discoverableBucketNamed b) = true)
    (hb : b ≠ "") (hnd : b ∉ disc)
    (hng : grantTargets items b (some curP) = false) :
    out.countP (fun e => e.bucket == b) = 1 ∧
    ∀ e ∈ out, e.bucket = b →
      e.workspace = pyStrip curW ∧ e.permission = .READ_WRITE ∧
      e.request_timestamp = none ∧ e.grant_timestamp = none ∧
      e.denied_timestamp = none := by
  obtain ⟨o1', o2, ex', h1', h2, hout⟩ := extract_decomp h
  have ho1 : o1' = o1 := by
    have := h1'.symm.trans h1
    injection this
  subst ho1
  obtain ⟨hex', hnd2, hsh⟩ := extractImplicit_spec h2
  have hc1 : o1'.countP (fun e => e.bucket == b) = 0 := by
    rw [List.countP_eq_zero]
    intro e he
    simp only [beq_iff_eq]
    intro hbe
    exact hnotexp (List.mem_map.mpr ⟨e, he, hbe⟩)
  have hmem : b ∈ o2.map (fun e => e.bucket) := by
    have hcov : b ∈ ex' := extractImplicit_covers h2 hq hb hnd
    rw [hex'] at hcov
    rcases List.mem_append.mp hcov with hm | hm
    · exact List.mem_reverse.mp hm
    · exact absurd hm hnotexp
  constructor
  · rw [applyGrants_countP_bucket hout, List.countP_append, hc1,
      countP_map_eq_one_of_nodup hnd2 hmem]
  · intro e' he' hbk'
    obtain ⟨e, he, hsk, hor⟩ := applyGrants_origin hout e' he'
    obtain ⟨hws, hbke, hperm, hpr⟩ := skel_fields hsk
    have hbe : e.bucket = b := hbke.trans hbk'
    rcases List.mem_append.mp he with hm | hm
    · exact absurd (List.mem_map.mpr ⟨e, hm, hbe⟩) hnotexp
    · obtain ⟨hw2, hp2, hrt2, hg2, hd2, hpr2, _, _⟩ := hsh e hm
      cases hor with
      | inl heq =>
        subst heq
        exact ⟨hw2, hp2, hrt2, hg2, hd2⟩
      | inr htg =>
        exfalso
        rw [hbe, hpr2] at htg
        rw [hng] at htg
        cases htg

/-- C1 (counterexample): the spec's own scenario — workspace `wsa` with its
single discoverable bucket `a-data` and no requests anywhere — yields the
empty list, not one implicit entry for `a-data`: the target's own
discoverable buckets are filtered out of the implicit pass. -/
theorem C1_counterexample :
    _extract_relevant_bucket_access_requests ["a-data"] "pa" "wsa"
      [⟨some "wsa", ⟨some "pa", [.dict ⟨some "a-data", none, .bool true⟩], [], []⟩⟩] =
      .ok [] ∧
    ([] : List BucketAccessRequest).countP
      (fun e => e.workspace == "wsa" && e.bucket == "a-data") = 0 := by
  exact ⟨by decide, rfl⟩

/-- Witness for C1 at a concrete input: another record's discoverable bucket
`zzz` yields exactly one synthesized entry for the target. -/
theorem C1_witness :
    ([⟨"wsa", "zzz", .READ_WRITE, none, none, none, some "pa"⟩] :
        List BucketAccessRequest).countP (fun e => e.bucket == "zzz") = 1 ∧
    ∀ e ∈ ([⟨"wsa", "zzz", .READ_WRITE, none, none, none, some "pa"⟩] :
        List BucketAccessRequest), e.bucket = "zzz" →
      e.workspace = pyStrip "wsa" ∧ e.permission = .READ_WRITE ∧
      e.request_timestamp = none ∧ e.grant_timestamp = none ∧
      e.denied_timestamp = none :=
  C1_implicit_for_foreign_discoverable [] "pa" "wsa" "zzz"
    [⟨some "wsx", ⟨some "px", [.dict ⟨some "zzz", none, .bool true⟩], [], []⟩⟩]
    []
    [⟨"wsa", "zzz", .READ_WRITE, none, none, none, some "pa"⟩]
    (by decide) (by decide) (by decide) (by decide) (by decide) (by decide) (by decide)

/-- Witness for C5 at a concrete extraction where a denial was folded in. -/
theorem C5_witness :
    (⟨"wsb", "a-data", .READ_WRITE, some "2024-01-03T00:00:00+00:00",
        none, some "2024-01-03T00:00:00+00:00", some "pb"⟩ :
      BucketAccessRequest).grant_timestamp = none ∨
    (⟨"wsb", "a-data", .READ_WRITE, some "2024-01-03T00:00:00+00:00",
        none, some "2024-01-03T00:00:00+00:00", some "pb"⟩ :
      BucketAccessRequest).denied_timestamp = none :=
  (C5_grant_denied_exclusive ["a-data"] "pa" "wsa"
    [⟨some "wsb", ⟨some "pb", [],
       [.dict ⟨some "a-data", none, some "2024-01-01T00:00:00Z"⟩], []⟩⟩,
     ⟨some "wsa", ⟨some "pa", [], [],
       [.dict ⟨some "a-data", some "pb", some "None", none,
          some "2024-01-03T00:00:00Z", none⟩]⟩⟩]
    [⟨"wsb", "a-data", .READ_WRITE, some "2024-01-03T00:00:00+00:00",
       none, some "2024-01-03T00:00:00+00:00", some "pb"⟩]
    (by decide)).1
    ⟨"wsb", "a-data", .READ_WRITE, some "2024-01-03T00:00:00+00:00",
      none, some "2024-01-03T00:00:00+00:00", some "pb"⟩
    (by decide)

/-- C6 (amended): the extraction result holds at most one entry per bucket
name for buckets not named by any pass-1 (explicit) entry; explicit entries
themselves are not deduplicated. -/
theorem C6_at_most_one_per_bucket_without_explicit (disc : List String)
    (curP curW b : String) (items : List StorageItem)
    (o1 out : List BucketAccessRequest)
    (h : _extract_relevant_bucket_access_requests disc curP curW items = .ok out)
    (h1 : extractExplicit disc curP items = .ok o1)
    (hnotexp : b ∉ o1.map (fun e => e.bucket)) :
    out.countP (fun e => e.bucket == b) ≤ 1 := by
  obtain ⟨o1', o2, ex', h1', h2, hout⟩ := extract_decomp h
  have ho1 : o1' = o1 := by
    have := h1'.symm.trans h1
    injection this
  subst ho1
  obtain ⟨hex', hnd2, hsh⟩ := extractImplicit_spec h2
  rw [applyGrants_countP_bucket hout, List.countP_append]
  have hc1 : o1'.countP (fun e => e.bucket == b) = 0 := by
    rw [List.countP_eq_zero]
    intro e he
    simp only [beq_iff_eq]
    intro hbe
    exact hnotexp (List.mem_map.mpr ⟨e, he, hbe⟩)
  rw [hc1]
  simpa using countP_map_le_one_of_nodup hnd2

/-- C6 (counterexample): a single record listing two raw requests for the
same bucket produces two entries with the same (workspace, bucket) pair —
the explicit pass has no dedup. -/
theorem C6_counterexample :
    _extract_relevant_bucket_access_requests [] "pa" "wsa"
      [⟨some "wsa", ⟨some "pa", [],
         [.dict ⟨some "bbb", none, some "2024-01-01T00:00:00Z"⟩,
          .dict ⟨some "bbb", none, some "2024-01-02T00:00:00Z"⟩], []⟩⟩] =
      .ok [⟨"wsa", "bbb", .READ_WRITE, some "2024-01-01T00:00:00+00:00",
             none, none, some "pa"⟩,
           ⟨"wsa", "bbb", .READ_WRITE, some "2024-01-02T00:00:00+00:00",
             none, none, some "pa"⟩] ∧
    ([⟨"wsa", "bbb", .READ_WRITE, some "2024-01-01T00:00:00+00:00",
        none, none, some "pa"⟩,
      ⟨"wsa", "bbb", .READ_WRITE, some "2024-01-02T00:00:00+00:00",
        none, none, some "pa"⟩] : List BucketAccessRequest).countP
      (fun e => e.workspace == "wsa" && e.bucket == "bbb") = 2 := by
  exact ⟨by decide, by decide⟩

/-- Witness for C6 at a concrete input with an implicit entry only. -/
theorem C6_witness :
    ([⟨"wsy", "yyy", .READ_WRITE, none, none, none, some "py"⟩] :
        List BucketAccessRequest).countP (fun e => e.bucket == "yyy") ≤ 1 :=
  C6_at_most_one_per_bucket_without_explicit [] "py" "wsy" "yyy"
    [⟨some "wsx", ⟨some "px", [.dict ⟨some "yyy", none, .bool true⟩], [], []⟩⟩]
    []
    [⟨"wsy", "yyy", .READ_WRITE, none, none, none, some "py"⟩]
    (by decide) (by decide) (by decide)

/-- C7 (counterexample): with the reason "need read only access" — which
contains neither the substring "readonly" nor "read-only" — the surfaced
entry carries ReadWrite, not ReadOnly as the claim states. -/
theorem C7_counterexample :
    _extract_relevant_bucket_access_requests ["a-data"] "pa" "wsa"
      [⟨some "wsb", ⟨some "pb", [],
         [.dict ⟨some "a-data", some "need read only access",
            some "2024-01-01T00:00:00Z"⟩], []⟩⟩] =
      .ok [⟨"wsb", "a-data", .READ_WRITE, some "2024-01-01T00:00:00+00:00",
             none, none, some "pb"⟩] ∧
    BucketPermission.READ_WRITE ≠ BucketPermission.READ_ONLY := by
  exact ⟨by decide, by decide⟩

/-- C7 (amended): the entry is surfaced with (workspace wsb, bucket a-data,
UTC-normalized request timestamp), but the permission inferred from
"need read only access" is the ReadWrite default, because the heuristic only
matches the substrings "readonly" and "read-only"; with the reason
"need read-only access" the same extraction yields ReadOnly. -/
theorem C7_reason_heuristic :
    _extract_relevant_bucket_access_requests ["a-data"] "pa" "wsa"
      [⟨some "wsb", ⟨some "pb", [],
         [.dict ⟨some "a-data", some "need read only access",
            some "2024-01-01T00:00:00Z"⟩], []⟩⟩] =
      .ok [⟨"wsb", "a-data", .READ_WRITE, some "2024-01-01T00:00:00+00:00",
             none, none, some "pb"⟩] ∧
    _extract_relevant_bucket_access_requests ["a-data"] "pa" "wsa"
      [⟨some "wsb", ⟨some "pb", [],
         [.dict ⟨some "a-data", some "need read-only access",
            some "2024-01-01T00:00:00Z"⟩], []⟩⟩] =
      .ok [⟨"wsb", "a-data", .READ_ONLY, some "2024-01-01T00:00:00+00:00",
             none, none, some "pb"⟩] := by
  exact ⟨by decide, by decide⟩

/-- Pass 1 treats two records with empty stripped principal alike at the same
position: both are skipped whole. -/
theorem extractExplicit_skip_congr (disc : List String) (curP : String)
    (pre post : List StorageItem) (r r' : StorageItem)
    (hr : stripOpt r.spec.principal = "") (hr' : stripOpt r'.spec.principal = "") :
    extractExplicit disc curP (pre ++ r :: post) =
      extractExplicit disc curP (pre ++ r' :: post) := by
  induction pre with
  | nil =>
    simp only [List.nil_append, extractExplicit, hr, hr', if_pos]
  | cons x rest ih =>
    simp only [List.cons_append, extractExplicit, List.append_eq]
    rw [ih]

/-- Pass 2 only reads the `buckets` lists of the records. -/
theorem extractImplicit_buckets_congr (disc : List String) (curP curW : String) :
    ∀ (items1 items2 : List StorageItem),
    items1.map (fun i => i.spec.buckets) = items2.map (fun i => i.spec.buckets) →
    ∀ ex, extractImplicit disc curP curW items1 ex =
      extractImplicit disc curP curW items2 ex := by
  intro items1
  induction items1 with
  | nil =>
    intro items2 hmap ex
    cases items2 with
    | nil => rfl
    | cons _ _ => simp at hmap
  | cons i1 rest1 ih =>
    intro items2 hmap ex
    cases items2 with
    | nil => simp at hmap
    | cons i2 rest2 =>
      simp only [List.map_cons, List.cons.injEq] at hmap
      simp only [extractImplicit]
      rw [hmap.1]
      cases extractImplicitBuckets disc curP curW i2.spec.buckets ex with
      | error e => rfl
      | ok p =>
        dsimp only
        rw [ih rest2 hmap.2]

/-- Pass 3 only reads the `bucketAccessGrants` lists of the records. -/
theorem applyGrants_grants_congr :
    ∀ (items1 items2 : List StorageItem),
    items1.map (fun i => i.spec.bucketAccessGrants) =
      items2.map (fun i => i.spec.bucketAccessGrants) →
    ∀ l, applyGrants items1 l = applyGrants items2 l := by
  intro items1
  induction items1 with
  | nil =>
    intro items2 hmap l
    cases items2 with
    | nil => rfl
    | cons _ _ => simp at hmap
  | cons i1 rest1 ih =>
    intro items2 hmap l
    cases items2 with
    | nil => simp at hmap
    | cons i2 rest2 =>
      simp only [List.map_cons, List.cons.injEq] at hmap
      simp only [applyGrants]
      rw [hmap.1]
      cases applyGrantsOfRecord i2.spec.bucketAccessGrants l with
      | error e => rfl
      | ok l2 =>
        dsimp only
        exact ih rest2 hmap.2 _

/-- C9 (amended): a record lacking a principal is skipped only by the
explicit-requests pass: its `bucketAccessRequests` list is irrelevant to the
extraction result (replacing it by `[]` changes nothing), while its
discoverable buckets and its grants still contribute. -/
theorem C9_requests_of_principalless_ignored (disc : List String)
    (curP curW : String) (pre post : List StorageItem) (r : StorageItem)
    (hpr : stripOpt r.spec.principal = "") :
    _extract_relevant_bucket_access_requests disc curP curW (pre ++ r :: post) =
    _extract_relevant_bucket_access_requests disc curP curW
      (pre ++ (⟨r.name, ⟨r.spec.principal, r.spec.buckets, [],
        r.spec.bucketAccessGrants⟩⟩ : StorageItem) :: post) := by
  have h1 := extractExplicit_skip_congr disc curP pre post r
    ⟨r.name, ⟨r.spec.principal, r.spec.buckets, [], r.spec.bucketAccessGrants⟩⟩
    hpr hpr
  have hmapb : (pre ++ r :: post).map (fun i => i.spec.buckets) =
      (pre ++ (⟨r.name, ⟨r.spec.principal, r.spec.buckets, [],
        r.spec.bucketAccessGrants⟩⟩ : StorageItem) :: post).map
        (fun i => i.spec.buckets) := by
    simp
  have hmapg : (pre ++ r :: post).map (fun i => i.spec.bucketAccessGrants) =
      (pre ++ (⟨r.name, ⟨r.spec.principal, r.spec.buckets, [],
        r.spec.bucketAccessGrants⟩⟩ : StorageItem) :: post).map
        (fun i => i.spec.bucketAccessGrants) := by
    simp
  unfold _extract_relevant_bucket_access_requests
  rw [h1]
  cases extractExplicit disc curP (pre ++ (⟨r.name, ⟨r.spec.principal,
      r.spec.buckets, [], r.spec.bucketAccessGrants⟩⟩ : StorageItem) :: post) with
  | error e => rfl
  | ok o1 =>
    dsimp only
    rw [extractImplicit_buckets_congr disc curP curW _ _ hmapb]
    cases extractImplicit disc curP curW (pre ++ (⟨r.name, ⟨r.spec.principal,
        r.spec.buckets, [], r.spec.bucketAccessGrants⟩⟩ : StorageItem) :: post)
        (o1.map (fun e => e.bucket)) with
    | error e => rfl
    | ok p =>
      dsimp only
      rw [applyGrants_grants_congr _ _ hmapg]

/-- C9 (counterexample): a record with no principal still contributes: its
discoverable bucket seeds an implicit entry (first run), and its recorded
grant folds into another record's request (second run). -/
theorem C9_counterexample :
    _extract_relevant_bucket_access_requests [] "pa" "wsa"
      [⟨some "wsx", ⟨none, [.dict ⟨some "zzz", none, .bool true⟩], [], []⟩⟩] =
      .ok [⟨"wsa", "zzz", .READ_WRITE, none, none, none, some "pa"⟩] ∧
    _extract_relevant_bucket_access_requests ["a-data"] "pa" "wsa"
      [⟨some "wsb", ⟨some "pb", [],
         [.dict ⟨some "a-data", none, some "2024-01-01T00:00:00Z"⟩], []⟩⟩,
       ⟨some "wsx", ⟨none, [], [],
         [.dict ⟨some "a-data", some "pb", some "ReadOnly", none,
            some "2024-01-02T00:00:00Z", none⟩]⟩⟩] =
      .ok [⟨"wsb", "a-data", .READ_WRITE, some "2024-01-02T00:00:00+00:00",
             some "2024-01-02T00:00:00+00:00", none, some "pb"⟩] := by
  exact ⟨by decide, by decide⟩

/-- Witness for C9 at a concrete principal-less record carrying a request:
dropping its request list leaves the result unchanged. -/
theorem C9_witness :
    _extract_relevant_bucket_access_requests [] "pa" "wsa"
      ([] ++ (⟨some "wsx", ⟨some "   ", [],
         [.dict ⟨some "qqq", none, some "2024-01-01T00:00:00Z"⟩], []⟩⟩ :
           StorageItem) :: []) =
    _extract_relevant_bucket_access_requests [] "pa" "wsa"
      ([] ++ (⟨some "wsx", ⟨some "   ", [], [], []⟩⟩ : StorageItem) :: []) :=
  C9_requests_of_principalless_ignored [] "pa" "wsa" [] []
    ⟨some "wsx", ⟨some "   ", [],
      [.dict ⟨some "qqq", none, some "2024-01-01T00:00:00Z"⟩], []⟩⟩
    (by decide)

/-- Validity of one element of a record's `bucketAccessRequests` for the
extraction not to raise: a dict entry that reaches model construction
(non-empty name, relevant, timestamped) must carry a valid S3 name, on a
record with a non-empty name, and its `requestedAt` must survive the
datetime pipeline. -/
def reqEntryOK (disc : List String) (curP wn pr : String) :
    JsonEntry RawRequest → Prop
  | .nondict => True
  | .dict rr =>
    stripOpt rr.bucketName ≠ "" →
    (pr = curP ∨ stripOpt rr.bucketName ∈ disc) →
    truthyStr rr.requestedAt = true →
    (wn ≠ "" ∧ _is_s3_bucket_name (stripOpt rr.bucketName) = true ∧
      (parseTs rr.requestedAt).isOk = true)

instance reqEntryOK.decidable (disc : List String) (curP wn pr : String) :
    (re : JsonEntry RawRequest) → Decidable (reqEntryOK disc curP wn pr re)
  | .nondict => isTrue trivial
  | .dict rr => inferInstanceAs (Decidable (_ → _ → _ → _ ∧ _ ∧ _))

/-- Validity of one element of a record's `buckets` list for the implicit
pass not to raise. -/
def bucketEntryOK (disc : List String) (curW : String) :
    JsonEntry BucketEntry → Prop
  | .nondict => True
  | .dict bb =>
    _as_bool bb.discoverable = true →
    stripOpt bb.bucketName ≠ "" →
    stripOpt bb.bucketName ∉ disc →
    (pyStrip curW ≠ "" ∧ _is_s3_bucket_name (stripOpt bb.bucketName) = true)

instance bucketEntryOK.decidable (disc : List String) (curW : String) :
    (be : JsonEntry BucketEntry) → Decidable (bucketEntryOK disc curW be)
  | .nondict => isTrue trivial
  | .dict bb => inferInstanceAs (Decidable (_ → _ → _ → _ ∧ _))

/-- Validity of one element of a record's `bucketAccessGrants` for the grant
fold not to raise: a dict grant that reaches the assignments (non-empty
grantee and bucket, truthy grantedAt) must carry timestamps that survive the
datetime pipeline run by the assignment validators. -/
def grantEntryOK : JsonEntry RawGrant → Prop
  | .nondict => True
  | .dict g =>
    stripOpt g.grantee ≠ "" →
    stripOpt g.bucketName ≠ "" →
    truthyStr (pyOrStr g.grantedAt g.granted_at) = true →
    ((parseTs (pyOrStr g.requestedAt (pyOrStr g.grantedAt g.granted_at))).isOk = true ∧
     (parseTs (pyOrStr g.grantedAt g.granted_at)).isOk = true)

instance grantEntryOK.decidable :
    (ge : JsonEntry RawGrant) → Decidable (grantEntryOK ge)
  | .nondict => isTrue trivial
  | .dict g => inferInstanceAs (Decidable (_ → _ → _ → _ ∧ _))

theorem setdefaultRequestedAt_bucketName (ts : KeyVal) (r : StoredReq) :
    (setdefaultRequestedAt ts r).bucketName = r.bucketName := by
  cases hr : r.requestedAt <;> simp [setdefaultRequestedAt, hr]

theorem updateLastReq_cons_in (b : String) (ts : KeyVal) (e : JsonEntry StoredReq)
    (rest : List (JsonEntry StoredReq)) (h : hasReqKey rest b = true) :
    updateLastReq b ts (e :: rest) = e :: updateLastReq b ts rest := by
  cases e with
  | dict r =>
    simp only [updateLastReq]
    rw [if_pos h]
  | nondict =>
    simp only [updateLastReq]
    rw [if_pos h]

theorem updateLastReq_cons_out_dict (b : String) (ts : KeyVal) (r : StoredReq)
    (rest : List (JsonEntry StoredReq)) (h : ¬ hasReqKey rest b = true) :
    updateLastReq b ts (.dict r :: rest) =
      (if stripOpt r.bucketName = b then JsonEntry.dict (setdefaultRequestedAt ts r)
       else .dict r) :: rest := by
  simp only [updateLastReq]
  rw [if_neg h]
  split_ifs with h2 <;> rfl

theorem updateLastReq_cons_out_nondict (b : String) (ts : KeyVal)
    (rest : List (JsonEntry StoredReq)) (h : ¬ hasReqKey rest b = true) :
    updateLastReq b ts (.nondict :: rest) = .nondict :: rest := by
  simp only [updateLastReq]
  rw [if_neg h]

theorem updateLastReq_map_reqKey (b : String) (ts : KeyVal)
    (l : List (JsonEntry StoredReq)) :
    (updateLastReq b ts l).map reqKey = l.map reqKey := by
  induction l with
  | nil => rfl
  | cons e rest ih =>
    by_cases hkey : hasReqKey rest b = true
    · rw [updateLastReq_cons_in b ts e rest hkey]
      simp [ih]
    · cases e with
      | dict r =>
        rw [updateLastReq_cons_out_dict b ts r rest hkey]
        split_ifs with h2
        · simp [reqKey, setdefaultRequestedAt_bucketName]
        · rfl
      | nondict =>
        rw [updateLastReq_cons_out_nondict b ts rest hkey]

theorem countP_updateLastReq (b : String) (ts : KeyVal) (b' : String)
    (l : List (JsonEntry StoredReq)) :
    (updateLastReq b ts l).countP (fun e => reqKey e == some b') =
      l.countP (fun e => reqKey e == some b') := by
  have h := congrArg (List.countP (fun k => k == some b'))
    (updateLastReq_map_reqKey b ts l)
  rw [List.countP_map, List.countP_map] at h
  simpa [Function.comp] using h

theorem hasReqKey_iff_countP_pos {l : List (JsonEntry StoredReq)} {b : String} :
    hasReqKey l b = true ↔ 0 < l.countP (fun e => reqKey e == some b) := by
  rw [List.countP_pos]
  simp [hasReqKey]

theorem hasReqKey_updateLastReq (b : String) (ts : KeyVal) (b' : String)
    (l : List (JsonEntry StoredReq)) :
    hasReqKey (updateLastReq b ts l) b' = hasReqKey l b' := by
  have h1 := countP_updateLastReq b ts b' l
  by_cases hh : hasReqKey l b' = true
  · rw [hh]
    exact hasReqKey_iff_countP_pos.mpr (h1 ▸ hasReqKey_iff_countP_pos.mp hh)
  · have h2 : ¬ hasReqKey (updateLastReq b ts l) b' = true := by
      intro hc
      exact hh (hasReqKey_iff_countP_pos.mpr (h1 ▸ hasReqKey_iff_countP_pos.mp hc))
    simp only [Bool.not_eq_true] at hh h2
    rw [hh, h2]

theorem updateLastReq_idem (b : String) (ts : KeyVal) (hts : ts ≠ .absent)
    (l : List (JsonEntry StoredReq)) :
    updateLastReq b ts (updateLastReq b ts l) = updateLastReq b ts l := by
  induction l with
  | nil => rfl
  | cons e rest ih =>
    by_cases hkey : hasReqKey rest b = true
    · rw [updateLastReq_cons_in b ts e rest hkey,
        updateLastReq_cons_in b ts e (updateLastReq b ts rest)
          (by rw [hasReqKey_updateLastReq]; exact hkey), ih]
    · cases e with
      | dict r =>
        rw [updateLastReq_cons_out_dict b ts r rest hkey]
        split_ifs with h2
        · rw [updateLastReq_cons_out_dict b ts _ rest hkey]
          rw [if_pos (by rw [setdefaultRequestedAt_bucketName]; exact h2)]
          have hsd : setdefaultRequestedAt ts (setdefaultRequestedAt ts r) =
              setdefaultRequestedAt ts r := by
            cases hra : r.requestedAt with
            | absent =>
              cases ts with
              | absent => exact absurd rfl hts
              | null => simp [setdefaultRequestedAt, hra]
              | val s => simp [setdefaultRequestedAt, hra]
            | null => simp [setdefaultRequestedAt, hra]
            | val s => simp [setdefaultRequestedAt, hra]
          rw [hsd]
        · rw [updateLastReq_cons_out_dict b ts r rest hkey, if_neg h2]
      | nondict =>
        rw [updateLastReq_cons_out_nondict b ts rest hkey,
          updateLastReq_cons_out_nondict b ts rest hkey]

theorem updateLastReq_append_last (b : String) (ts : KeyVal)
    (l : List (JsonEntry StoredReq)) (r : StoredReq)
    (hk : stripOpt r.bucketName = b) :
    updateLastReq b ts (l ++ [.dict r]) =
      l ++ [.dict (setdefaultRequestedAt ts r)] := by
  induction l with
  | nil =>
    simp only [List.nil_append]
    rw [updateLastReq_cons_out_dict b ts r [] (by simp [hasReqKey]), if_pos hk]
  | cons e rest ih =>
    have hkey : hasReqKey (rest ++ [.dict r]) b = true := by
      simp [hasReqKey, List.any_append, reqKey, hk]
    simp only [List.cons_append]
    rw [updateLastReq_cons_in b ts e _ hkey, ih]

theorem kvOf_ne_absent (o : Option String) : kvOf o ≠ .absent := by
  cases o <;> simp [kvOf]

/-- The request branch of `applyPatchOp`, unfolded. -/
theorem applyPatchOp_request_eq (workspace_name : String)
    (store : String → Option StorageSpec) (p : BucketAccessRequest)
    (s : UpdateState) (hws : p.workspace = workspace_name)
    (hb : pyStrip p.bucket ≠ "") :
    applyPatchOp workspace_name store s p =
      if hasReqKey s.requests (pyStrip p.bucket) then
        .ok { s with requests := (updateLastReq (pyStrip p.bucket)
          (kvOf (_iso p.request_timestamp)) s.requests) }
      else
        .ok { s with requests := s.requests ++
          [.dict { bucketName := some (pyStrip p.bucket)
                   reason := some "requesting access"
                   requestedAt := kvOf (_iso p.request_timestamp) }] } := by
  unfold applyPatchOp
  rw [if_neg hb, if_pos hws]

/-- C3 (amended): an add-request patch is a claim-once upsert relative to
`req_by_bucket`: a second application of the same op — in the same update or
the next — changes nothing; when the record initially holds no request for
the bucket, exactly one entry results, carrying the first applied
`requestedAt`; the count of entries keyed by the bucket becomes
`max 1 (initial count)` (so "exactly one" additionally needs the record not
to hold several pre-existing raw requests for the same bucket, which the
dict-based upsert never removes); buckets and grants are untouched. -/
theorem C3_claim_idempotent (workspace_name : String)
    (store : String → Option StorageSpec) (p : BucketAccessRequest)
    (st st1 st2 : UpdateState)
    (hws : p.workspace = workspace_name)
    (hb : pyStrip p.bucket ≠ "")
    (h1 : applyPatchOp workspace_name store st p = .ok st1)
    (h2 : applyPatchOp workspace_name store st1 p = .ok st2) :
    st2 = st1 ∧
    st1.requests.countP (fun e => reqKey e == some (pyStrip p.bucket)) =
      max 1 (st.requests.countP (fun e => reqKey e == some (pyStrip p.bucket))) ∧
    (st.requests.countP (fun e => reqKey e == some (pyStrip p.bucket)) = 0 →
      st1.requests = st.requests ++
        [.dict ⟨some (pyStrip p.bucket), some "requesting access",
          kvOf (_iso p.request_timestamp)⟩]) ∧
    st1.buckets = st.buckets ∧ st1.grants = st.grants := by
  rw [applyPatchOp_request_eq workspace_name store p st hws hb] at h1
  rw [applyPatchOp_request_eq workspace_name store p st1 hws hb] at h2
  by_cases hkey : hasReqKey st.requests (pyStrip p.bucket) = true
  · rw [if_pos hkey] at h1
    simp only [Except.ok.injEq] at h1
    subst h1
    rw [if_pos (by rw [hasReqKey_updateLastReq]; exact hkey)] at h2
    simp only [Except.ok.injEq] at h2
    subst h2
    have hpos := hasReqKey_iff_countP_pos.mp hkey
    refine ⟨?_, ?_, ?_, rfl, rfl⟩
    · simp only [updateLastReq_idem _ _ (kvOf_ne_absent _) st.requests]
    · rw [countP_updateLastReq]
      omega
    · intro h0
      omega
  · rw [if_neg hkey] at h1
    simp only [Except.ok.injEq] at h1
    subst h1
    have hz : st.requests.countP (fun e => reqKey e == some (pyStrip p.bucket)) = 0 := by
      by_contra hc
      exact hkey (hasReqKey_iff_countP_pos.mpr (by omega))
    have hknew : reqKey (.dict ⟨some (pyStrip p.bucket), some "requesting access",
        kvOf (_iso p.request_timestamp)⟩ : JsonEntry StoredReq) =
        some (pyStrip p.bucket) := by
      simp [reqKey, stripOpt, pyStrip_idem]
    have hkey1 : hasReqKey (st.requests ++
        [.dict ⟨some (pyStrip p.bucket), some "requesting access",
          kvOf (_iso p.request_timestamp)⟩]) (pyStrip p.bucket) = true := by
      simp only [hasReqKey, List.any_append, List.any_cons, List.any_nil]
      simp [hknew]
    rw [if_pos hkey1] at h2
    simp only [Except.ok.injEq] at h2
    subst h2
    have hupd := updateLastReq_append_last (pyStrip p.bucket)
      (kvOf (_iso p.request_timestamp)) st.requests
      ⟨some (pyStrip p.bucket), some "requesting access",
        kvOf (_iso p.request_timestamp)⟩
      (by simpa [reqKey] using hknew)
    have hsd : setdefaultRequestedAt (kvOf (_iso p.request_timestamp))
        ⟨some (pyStrip p.bucket), some "requesting access",
          kvOf (_iso p.request_timestamp)⟩ =
        (⟨some (pyStrip p.bucket), some "requesting access",
          kvOf (_iso p.request_timestamp)⟩ : StoredReq) := by
      cases h : kvOf (_iso p.request_timestamp) with
      | absent => exact absurd h (kvOf_ne_absent _)
      | null => simp [setdefaultRequestedAt, h]
      | val s => simp [setdefaultRequestedAt, h]
    refine ⟨?_, ?_, fun _ => rfl, rfl, rfl⟩
    · simp only [hupd, hsd]
    · rw [List.countP_append, hz]
      simp [hknew]

/-- C3 (counterexample): a record that already stores two raw requests for
bucket `bbb` keeps both after the same add-request op is applied twice —
the claim's "exactly one RawRequest entry for b" fails for pre-duplicated
records (the upsert never removes duplicates). -/
theorem C3_counterexample :
    applyPatchOps "wsa" (fun _ => none)
      [⟨"wsa", "bbb", .READ_WRITE, some "2024-01-01T00:00:00+00:00", none, none, none⟩,
       ⟨"wsa", "bbb", .READ_WRITE, some "2024-01-01T00:00:00+00:00", none, none, none⟩]
      ⟨[], [.dict ⟨some "bbb", none, .val "t0"⟩, .dict ⟨some "bbb", none, .val "t0"⟩], []⟩ =
      .ok ⟨[], [.dict ⟨some "bbb", none, .val "t0"⟩,
                .dict ⟨some "bbb", none, .val "t0"⟩], []⟩ ∧
    ([.dict ⟨some "bbb", none, .val "t0"⟩, .dict ⟨some "bbb", none, .val "t0"⟩] :
      List (JsonEntry StoredReq)).countP (fun e => reqKey e == some "bbb") = 2 := by
  exact ⟨by decide, by decide⟩

/-- Witness for C3 at a fresh record: the op creates one entry and a second
application is a no-op. -/
theorem C3_witness :
    (⟨[], [.dict ⟨some (pyStrip "bbb"), some "requesting access",
        kvOf (_iso (some "2024-01-01T00:00:00+00:00"))⟩], []⟩ : UpdateState) =
      ⟨[], [.dict ⟨some (pyStrip "bbb"), some "requesting access",
        kvOf (_iso (some "2024-01-01T00:00:00+00:00"))⟩], []⟩ ∧
    (⟨[], [.dict ⟨some (pyStrip "bbb"), some "requesting access",
        kvOf (_iso (some "2024-01-01T00:00:00+00:00"))⟩], []⟩ :
        UpdateState).requests.countP
        (fun e => reqKey e == some (pyStrip "bbb")) =
      max 1 ((⟨[], [], []⟩ : UpdateState).requests.countP
        (fun e => reqKey e == some (pyStrip "bbb"))) ∧
    ((⟨[], [], []⟩ : UpdateState).requests.countP
        (fun e => reqKey e == some (pyStrip "bbb")) = 0 →
      (⟨[], [.dict ⟨some (pyStrip "bbb"), some "requesting access",
          kvOf (_iso (some "2024-01-01T00:00:00+00:00"))⟩], []⟩ :
          UpdateState).requests =
        (⟨[], [], []⟩ : UpdateState).requests ++
          [.dict ⟨some (pyStrip "bbb"), some "requesting access",
            kvOf (_iso (some "2024-01-01T00:00:00+00:00"))⟩]) ∧
    (⟨[], [.dict ⟨some (pyStrip "bbb"), some "requesting access",
        kvOf (_iso (some "2024-01-01T00:00:00+00:00"))⟩], []⟩ :
        UpdateState).buckets = (⟨[], [], []⟩ : UpdateState).buckets ∧
    (⟨[], [.dict ⟨some (pyStrip "bbb"), some "requesting access",
        kvOf (_iso (some "2024-01-01T00:00:00+00:00"))⟩], []⟩ :
        UpdateState).grants = (⟨[], [], []⟩ : UpdateState).grants :=
  C3_claim_idempotent "wsa" (fun _ => none)
    ⟨"wsa", "bbb", .READ_WRITE, some "2024-01-01T00:00:00+00:00", none, none, none⟩
    ⟨[], [], []⟩
    ⟨[], [.dict ⟨some (pyStrip "bbb"), some "requesting access",
      kvOf (_iso (some "2024-01-01T00:00:00+00:00"))⟩], []⟩
    ⟨[], [.dict ⟨some (pyStrip "bbb"), some "requesting access",
      kvOf (_iso (some "2024-01-01T00:00:00+00:00"))⟩], []⟩
    (by decide) (by decide) (by decide) (by decide)

theorem bucketKey_new (x : String) (hx : pyStrip x = x) (hxe : x ≠ "") :
    bucketKey ⟨some x, none, .bool true⟩ = x := by
  simp only [bucketKey, _bucketname_from, _get_first, hx]
  rw [if_neg hxe]
  rfl

/-- A single-name add-buckets loop, unfolded. -/
theorem addBucketsToList_single (x : String) (b : List BucketEntry) :
    addBucketsToList [x] b =
      if x ∈ b.map bucketKey then b else b ++ [⟨some x, none, .bool true⟩] := by
  simp [addBucketsToList]

/-- C8 (amended): adding a bucket is a set-union by name relative to the
list the update started from: a no-op when an entry with that name exists,
one appended entry otherwise, hence idempotent across successive updates
(the second update recomputes `existing_names` and skips); and the storage
update applies exactly this list transformation.  Within a single update,
`existing_names` is not refreshed, so a repeated name in one `add_buckets`
list is appended twice (see the counterexample). -/
theorem C8_add_bucket_set_union (wsname x : String)
    (store : String → Option StorageSpec) (st : UpdateState)
    (buckets : List BucketEntry) (hx : pyStrip x = x) (hxe : x ≠ "") :
    ((∃ be ∈ buckets, bucketKey be = x) → addBucketsToList [x] buckets = buckets) ∧
    (addBucketsToList [x] buckets).countP (fun be => bucketKey be == x) =
      max 1 (buckets.countP (fun be => bucketKey be == x)) ∧
    addBucketsToList [x] (addBucketsToList [x] buckets) =
      addBucketsToList [x] buckets ∧
    update_workspace_storage wsname store ⟨[x], []⟩ st =
      .ok { st with buckets := addBucketsToList [x] st.buckets } := by
  refine ⟨?_, ?_, ?_, rfl⟩
  · intro ⟨be, hbe, hkey⟩
    rw [addBucketsToList_single, if_pos (List.mem_map.mpr ⟨be, hbe, hkey⟩)]
  · rw [addBucketsToList_single]
    by_cases hm : x ∈ buckets.map bucketKey
    · rw [if_pos hm]
      obtain ⟨be, hbe, hkey⟩ := List.mem_map.mp hm
      have hpos : 0 < buckets.countP (fun be => bucketKey be == x) := by
        rw [List.countP_pos]
        exact ⟨be, hbe, by simp [hkey]⟩
      omega
    · rw [if_neg hm]
      have hz : buckets.countP (fun be => bucketKey be == x) = 0 := by
        rw [List.countP_eq_zero]
        intro be hbe
        simp only [beq_iff_eq]
        intro hkey
        exact hm (List.mem_map.mpr ⟨be, hbe, hkey⟩)
      rw [List.countP_append, hz]
      simp [bucketKey_new x hx hxe]
  · rw [addBucketsToList_single x buckets]
    by_cases hm : x ∈ buckets.map bucketKey
    · rw [if_pos hm, addBucketsToList_single, if_pos hm]
    · rw [if_neg hm, addBucketsToList_single]
      rw [if_pos (by
        rw [List.map_append]
        refine List.mem_append.mpr (Or.inr ?_)
        simp [bucketKey_new x hx hxe])]

/-- C8 (counterexample): the duplicate name `xxx` inside one `add_buckets`
list passes payload validation and is appended twice by a single update —
`existing_names` is computed once from the pre-update list and not refreshed
while appending. -/
theorem C8_counterexample :
    validateWorkspaceEdit ⟨["xxx", "xxx"], []⟩ = .ok ⟨["xxx", "xxx"], []⟩ ∧
    update_workspace_storage "wsa" (fun _ => none) ⟨["xxx", "xxx"], []⟩ ⟨[], [], []⟩ =
      .ok ⟨[⟨some "xxx", none, .bool true⟩, ⟨some "xxx", none, .bool true⟩], [], []⟩ ∧
    ([⟨some "xxx", none, .bool true⟩, ⟨some "xxx", none, .bool true⟩] :
      List BucketEntry).countP (fun be => bucketKey be == "xxx") = 2 := by
  exact ⟨by decide, by decide, by decide⟩

/-- Witness for C8 at a concrete fresh bucket list. -/
theorem C8_witness :
    ((∃ be ∈ ([] : List BucketEntry), bucketKey be = "xxx") →
      addBucketsToList ["xxx"] [] = []) ∧
    (addBucketsToList ["xxx"] []).countP (fun be => bucketKey be == "xxx") =
      max 1 (([] : List BucketEntry).countP (fun be => bucketKey be == "xxx")) ∧
    addBucketsToList ["xxx"] (addBucketsToList ["xxx"] []) =
      addBucketsToList ["xxx"] [] ∧
    update_workspace_storage "wsa" (fun _ => none) ⟨["xxx"], []⟩ ⟨[], [], []⟩ =
      .ok { (⟨[], [], []⟩ : UpdateState) with
        buckets := addBucketsToList ["xxx"] (⟨[], [], []⟩ : UpdateState).buckets } :=
  C8_add_bucket_set_union "wsa" "xxx" (fun _ => none) ⟨[], [], []⟩ []
    (by decide) (by decide)

theorem updateLastGrant_cons_in (key : String × String) (perm : BucketPermission)
    (ga : String) (e : JsonEntry StoredGrant) (rest : List (JsonEntry StoredGrant))
    (h : hasGrKey rest key = true) :
    updateLastGrant key perm ga (e :: rest) = e :: updateLastGrant key perm ga rest := by
  cases e with
  | dict g =>
    simp only [updateLastGrant]
    rw [if_pos h]
  | nondict =>
    simp only [updateLastGrant]
    rw [if_pos h]

theorem updateLastGrant_cons_out_dict (key : String × String)
    (perm : BucketPermission) (ga : String) (g : StoredGrant)
    (rest : List (JsonEntry StoredGrant)) (h : ¬ hasGrKey rest key = true) :
    updateLastGrant key perm ga (.dict g :: rest) =
      (if (stripOpt g.bucketName, stripOpt g.grantee) = key then
        JsonEntry.dict { g with permission := .enum perm, grantedAt := some ga }
       else .dict g) :: rest := by
  simp only [updateLastGrant]
  rw [if_neg h]
  split_ifs with h2 <;> rfl

theorem updateLastGrant_cons_out_nondict (key : String × String)
    (perm : BucketPermission) (ga : String) (rest : List (JsonEntry StoredGrant))
    (h : ¬ hasGrKey rest key = true) :
    updateLastGrant key perm ga (.nondict :: rest) = .nondict :: rest := by
  simp only [updateLastGrant]
  rw [if_neg h]

theorem grKey_overwrite (g : StoredGrant) (perm : BucketPermission) (ga : String) :
    grKey (.dict { g with permission := .enum perm, grantedAt := some ga }) =
      grKey (.dict g) := rfl

theorem updateLastGrant_map_grKey (key : String × String) (perm : BucketPermission)
    (ga : String) (l : List (JsonEntry StoredGrant)) :
    (updateLastGrant key perm ga l).map grKey = l.map grKey := by
  induction l with
  | nil => rfl
  | cons e rest ih =>
    by_cases hkey : hasGrKey rest key = true
    · rw [updateLastGrant_cons_in key perm ga e rest hkey]
      simp [ih]
    · cases e with
      | dict g =>
        rw [updateLastGrant_cons_out_dict key perm ga g rest hkey]
        split_ifs with h2
        · simp [grKey]
        · rfl
      | nondict =>
        rw [updateLastGrant_cons_out_nondict key perm ga rest hkey]

theorem countP_updateLastGrant (key : String × String) (perm : BucketPermission)
    (ga : String) (key' : String × String) (l : List (JsonEntry StoredGrant)) :
    (updateLastGrant key perm ga l).countP (fun e => grKey e == some key') =
      l.countP (fun e => grKey e == some key') := by
  have h := congrArg (List.countP (fun k => k == some key'))
    (updateLastGrant_map_grKey key perm ga l)
  rw [List.countP_map, List.countP_map] at h
  simpa [Function.comp] using h

theorem hasGrKey_iff_countP_pos {l : List (JsonEntry StoredGrant)}
    {key : String × String} :
    hasGrKey l key = true ↔ 0 < l.countP (fun e => grKey e == some key) := by
  rw [List.countP_pos]
  simp [hasGrKey]

theorem hasGrKey_updateLastGrant (key : String × String) (perm : BucketPermission)
    (ga : String) (key' : String × String) (l : List (JsonEntry StoredGrant)) :
    hasGrKey (updateLastGrant key perm ga l) key' = hasGrKey l key' := by
  have h1 := countP_updateLastGrant key perm ga key' l
  by_cases hh : hasGrKey l key' = true
  · rw [hh]
    exact hasGrKey_iff_countP_pos.mpr (h1 ▸ hasGrKey_iff_countP_pos.mp hh)
  · have h2 : ¬ hasGrKey (updateLastGrant key perm ga l) key' = true := by
      intro hc
      exact hh (hasGrKey_iff_countP_pos.mpr (h1 ▸ hasGrKey_iff_countP_pos.mp hc))
    simp only [Bool.not_eq_true] at hh h2
    rw [hh, h2]

theorem filter_grKey_eq_nil {l : List (JsonEntry StoredGrant)} {key : String × String}
    (hc : l.countP (fun e => grKey e == some key) = 0) :
    l.filter (fun e => grKey e == some key) = [] := by
  have := List.countP_eq_length_filter (fun e => grKey e == some key) l
  rw [hc] at this
  exact List.length_eq_zero.mp this.symm

theorem updateLastGrant_single {key : String × String} (perm : BucketPermission)
    (ga : String) {l : List (JsonEntry StoredGrant)}
    (hc : l.countP (fun e => grKey e == some key) = 1) :
    ∃ gd : StoredGrant, l.filter (fun e => grKey e == some key) = [.dict gd] ∧
      (updateLastGrant key perm ga l).filter (fun e => grKey e == some key) =
        [.dict { gd with permission := .enum perm, grantedAt := some ga }] ∧
      (updateLastGrant key perm ga l).countP (fun e => grKey e == some key) = 1 := by
  induction l with
  | nil => simp at hc
  | cons e rest ih =>
    rw [List.countP_cons] at hc
    by_cases hke : grKey e = some key
    · have hone : (if (grKey e == some key) = true then 1 else 0) = 1 := by simp [hke]
      have hz : rest.countP (fun e => grKey e == some key) = 0 := by omega
      have hnk : ¬ hasGrKey rest key = true := by
        intro h
        have := hasGrKey_iff_countP_pos.mp h
        omega
      cases e with
      | nondict => simp [grKey] at hke
      | dict g =>
        have hgk : (stripOpt g.bucketName, stripOpt g.grantee) = key := by
          simpa [grKey] using hke
        rw [updateLastGrant_cons_out_dict key perm ga g rest hnk, if_pos hgk]
        refine ⟨g, ?_, ?_, ?_⟩
        · rw [List.filter_cons_of_pos (by simp [hke]), filter_grKey_eq_nil hz]
        · rw [List.filter_cons_of_pos (by simp [grKey_overwrite, hke]),
            filter_grKey_eq_nil hz]
        · rw [List.countP_cons, hz]
          have hupd : (grKey (JsonEntry.dict { g with permission := PermVal.enum perm, grantedAt := some ga }) == some key) = true := by
            simp [grKey_overwrite, hke]
          simp [hupd]
    · have hzero : (if (grKey e == some key) = true then 1 else 0) = 0 := by simp [hke]
      have h1 : rest.countP (fun e => grKey e == some key) = 1 := by omega
      have hk : hasGrKey rest key = true :=
        hasGrKey_iff_countP_pos.mpr (by omega)
      obtain ⟨gd, hf1, hf2, hcnt⟩ := ih h1
      rw [updateLastGrant_cons_in key perm ga e rest hk]
      refine ⟨gd, ?_, ?_, ?_⟩
      · rw [List.filter_cons_of_neg (by simp [hke]), hf1]
      · rw [List.filter_cons_of_neg (by simp [hke]), hf2]
      · rw [List.countP_cons]
        simp [hke, hcnt]

/-- The grant branch of `applyPatchOp`, unfolded. -/
theorem applyPatchOp_grant_eq (workspace_name : String)
    (store : String → Option StorageSpec) (p : BucketAccessRequest)
    (s : UpdateState) (gspec : StorageSpec)
    (hws : ¬ p.workspace = workspace_name) (hb : pyStrip p.bucket ≠ "")
    (hstore : store p.workspace = some gspec)
    (hpr : stripOpt gspec.principal ≠ "") :
    applyPatchOp workspace_name store s p =
      match grantDecision p with
      | none => .ok s
      | some (perm, granted_at) =>
        if hasGrKey s.grants (pyStrip p.bucket, stripOpt gspec.principal) then
          .ok { s with grants := (updateLastGrant
            (pyStrip p.bucket, stripOpt gspec.principal) perm granted_at s.grants) }
        else
          .ok { s with grants := s.grants ++
            [.dict { bucketName := some (pyStrip p.bucket)
                     grantee := some (stripOpt gspec.principal)
                     permission := .enum perm
                     grantedAt := some granted_at }] } := by
  unfold applyPatchOp
  rw [if_neg hb, if_neg hws, hstore]
  dsimp only
  rw [if_neg hpr]

/-- C4 (amended): two grant ops for the same (bucket, grantee) key, in one
update or across successive updates, leave the tracked entry (the last stored
dict with that key) holding exactly the later op's permission and timestamp;
provided the record initially stores at most one entry under that key,
exactly one entry remains.  Requests and buckets are untouched. -/
theorem C4_grant_overwrite (wsname gw b g : String)
    (store : String → Option StorageSpec) (gspec : StorageSpec)
    (p1 p2 : BucketAccessRequest) (st : UpdateState)
    (perm2 : BucketPermission) (ga2 : String)
    (hgw : ¬ gw = wsname)
    (hw1 : p1.workspace = gw) (hw2 : p2.workspace = gw)
    (hstore : store gw = some gspec)
    (hpr : stripOpt gspec.principal = g) (hgne : g ≠ "")
    (hb1 : pyStrip p1.bucket = b) (hb2 : pyStrip p2.bucket = b) (hbne : b ≠ "")
    (hd2 : grantDecision p2 = some (perm2, ga2))
    (hcount : st.grants.countP (fun e => grKey e == some (b, g)) ≤ 1) :
    ∃ st1 st2, applyPatchOp wsname store st p1 = .ok st1 ∧
      applyPatchOp wsname store st1 p2 = .ok st2 ∧
      applyPatchOps wsname store [p1, p2] st = .ok st2 ∧
      st2.grants.countP (fun e => grKey e == some (b, g)) = 1 ∧
      (∃ gd : StoredGrant,
        st2.grants.filter (fun e => grKey e == some (b, g)) = [.dict gd] ∧
        gd.permission = .enum perm2 ∧ gd.grantedAt = some ga2) ∧
      st2.buckets = st.buckets ∧ st2.requests = st.requests := by
  have hb1' : pyStrip b = b := by rw [← hb1, pyStrip_idem]
  have hg' : pyStrip g = g := by rw [← hpr, pyStrip_stripOpt]
  have hknew : ∀ pm ga0, grKey (.dict ⟨some b, some g, PermVal.enum pm, some ga0⟩ : JsonEntry StoredGrant) = some (b, g) := by
    intro pm ga0
    simp [grKey, stripOpt, hb1', hg']
  have hge1 := applyPatchOp_grant_eq wsname store p1 st gspec
    (by rw [hw1]; exact hgw) (by rw [hb1]; exact hbne) (by rw [hw1]; exact hstore)
    (by rw [hpr]; exact hgne)
  rw [hb1, hpr] at hge1
  -- the state after p1, by cases on its decision and key presence
  have hmain : ∀ s1 : UpdateState, applyPatchOp wsname store st p1 = .ok s1 →
      s1.buckets = st.buckets ∧ s1.requests = st.requests ∧
      s1.grants.countP (fun e => grKey e == some (b, g)) ≤ 1 := by
    intro s1 hs1
    rw [hge1] at hs1
    cases hd1 : grantDecision p1 with
    | none =>
      rw [hd1] at hs1
      simp only [Except.ok.injEq] at hs1
      subst hs1
      exact ⟨rfl, rfl, hcount⟩
    | some pr =>
      obtain ⟨perm1, ga1⟩ := pr
      rw [hd1] at hs1
      dsimp only at hs1
      by_cases hk : hasGrKey st.grants (b, g) = true
      · rw [if_pos hk] at hs1
        simp only [Except.ok.injEq] at hs1
        subst hs1
        refine ⟨rfl, rfl, ?_⟩
        rw [countP_updateLastGrant]
        exact hcount
      · rw [if_neg hk] at hs1
        simp only [Except.ok.injEq] at hs1
        subst hs1
        refine ⟨rfl, rfl, ?_⟩
        have hz : st.grants.countP (fun e => grKey e == some (b, g)) = 0 := by
          by_contra hc
          exact hk (hasGrKey_iff_countP_pos.mpr (by omega))
        rw [List.countP_append, hz]
        simp [hknew]
  obtain ⟨s1, hs1⟩ : ∃ s1, applyPatchOp wsname store st p1 = .ok s1 := by
    rw [hge1]
    cases hd1 : grantDecision p1 with
    | none => exact ⟨st, rfl⟩
    | some pr =>
      obtain ⟨perm1, ga1⟩ := pr
      dsimp only
      by_cases hk : hasGrKey st.grants (b, g) = true
      · rw [if_pos hk]
        exact ⟨_, rfl⟩
      · rw [if_neg hk]
        exact ⟨_, rfl⟩
  obtain ⟨hbk1, hrq1, hcnt1⟩ := hmain s1 hs1
  have hge2 := applyPatchOp_grant_eq wsname store p2 s1 gspec
    (by rw [hw2]; exact hgw) (by rw [hb2]; exact hbne) (by rw [hw2]; exact hstore)
    (by rw [hpr]; exact hgne)
  rw [hb2, hpr, hd2] at hge2
  dsimp only at hge2
  by_cases hk2 : hasGrKey s1.grants (b, g) = true
  · have hcpos := hasGrKey_iff_countP_pos.mp hk2
    have hcone : s1.grants.countP (fun e => grKey e == some (b, g)) = 1 := by omega
    obtain ⟨gd, hf1, hf2, hcnt2⟩ := updateLastGrant_single perm2 ga2 hcone
    rw [if_pos hk2] at hge2
    refine ⟨s1, _, hs1, hge2, ?_, ?_, ?_, ?_, ?_⟩
    · simp only [applyPatchOps, hs1, hge2]
    · exact hcnt2
    · exact ⟨{ gd with permission := .enum perm2, grantedAt := some ga2 }, hf2, rfl, rfl⟩
    · exact hbk1
    · exact hrq1
  · rw [if_neg hk2] at hge2
    have hz : s1.grants.countP (fun e => grKey e == some (b, g)) = 0 := by
      by_contra hc
      exact hk2 (hasGrKey_iff_countP_pos.mpr (by omega))
    refine ⟨s1, _, hs1, hge2, ?_, ?_, ?_, ?_, ?_⟩
    · simp only [applyPatchOps, hs1, hge2]
    · rw [List.countP_append, hz]
      simp [hknew]
    · refine ⟨⟨some b, some g, .enum perm2, some ga2⟩, ?_, rfl, rfl⟩
      rw [List.filter_append, filter_grKey_eq_nil hz]
      simp only [List.nil_append]
      rw [List.filter_cons_of_pos (by simp [hknew])]
      rfl
    · exact hbk1
    · exact hrq1

/-- C4 (counterexample): a record that already stores two grant entries under
the key (bbb, pb) keeps two entries after two grant ops for that key — only
the last one (the entry `gr_by_key` tracks) is overwritten, so the claim's
"exactly one entry keyed (b, g)" fails for pre-duplicated records. -/
theorem C4_counterexample :
    applyPatchOps "wsa"
      (fun w => if w = "wsb" then some ⟨some "pb", [], [], []⟩ else none)
      [⟨"wsb", "bbb", .READ_ONLY, some "t1", some "g1", none, none⟩,
       ⟨"wsb", "bbb", .WRITE_ONLY, some "t2", some "g2", none, none⟩]
      ⟨[], [], [.dict ⟨some "bbb", some "pb", .raw none, none⟩,
                .dict ⟨some "bbb", some "pb", .raw none, none⟩]⟩ =
      .ok ⟨[], [], [.dict ⟨some "bbb", some "pb", .raw none, none⟩,
                    .dict ⟨some "bbb", some "pb", .enum .WRITE_ONLY, some "g2"⟩]⟩ ∧
    ([.dict ⟨some "bbb", some "pb", .raw none, none⟩,
      .dict ⟨some "bbb", some "pb", .enum .WRITE_ONLY, some "g2"⟩] :
      List (JsonEntry StoredGrant)).countP
      (fun e => grKey e == some ("bbb", "pb")) = 2 := by
  exact ⟨by decide, by decide⟩

/-- Witness for C4 at a fresh record: the second grant op wins. -/
theorem C4_witness :
    ∃ st1 st2,
      applyPatchOp "wsa"
        (fun w => if w = "wsb" then some ⟨some "pb", [], [], []⟩ else none)
        ⟨[], [], []⟩
        ⟨"wsb", "bbb", .READ_ONLY, some "t1", some "g1", none, none⟩ = .ok st1 ∧
      applyPatchOp "wsa"
        (fun w => if w = "wsb" then some ⟨some "pb", [], [], []⟩ else none)
        st1 ⟨"wsb", "bbb", .WRITE_ONLY, some "t2", some "g2", none, none⟩ = .ok st2 ∧
      applyPatchOps "wsa"
        (fun w => if w = "wsb" then some ⟨some "pb", [], [], []⟩ else none)
        [⟨"wsb", "bbb", .READ_ONLY, some "t1", some "g1", none, none⟩,
         ⟨"wsb", "bbb", .WRITE_ONLY, some "t2", some "g2", none, none⟩]
        ⟨[], [], []⟩ = .ok st2 ∧
      st2.grants.countP (fun e => grKey e == some ("bbb", "pb")) = 1 ∧
      (∃ gd : StoredGrant,
        st2.grants.filter (fun e => grKey e == some ("bbb", "pb")) = [.dict gd] ∧
        gd.permission = .enum .WRITE_ONLY ∧ gd.grantedAt = some "g2") ∧
      st2.buckets = (⟨[], [], []⟩ : UpdateState).buckets ∧
      st2.requests = (⟨[], [], []⟩ : UpdateState).requests :=
  C4_grant_overwrite "wsa" "wsb" "bbb" "pb"
    (fun w => if w = "wsb" then some ⟨some "pb", [], [], []⟩ else none)
    ⟨some "pb", [], [], []⟩
    ⟨"wsb", "bbb", .READ_ONLY, some "t1", some "g1", none, none⟩
    ⟨"wsb", "bbb", .WRITE_ONLY, some "t2", some "g2", none, none⟩
    ⟨[], [], []⟩ .WRITE_ONLY "g2"
    (by decide) (by decide) (by decide) (by decide) (by decide) (by decide)
    (by decide) (by decide) (by decide) (by decide) (by decide)

/-! ## Lemmas about `WorkspaceEdit` validation -/

theorem exceptMapM_ok_mem {α β : Type} {f : α → Except String β} :
    ∀ {l : List α} {vs : List β}, exceptMapM f l = .ok vs →
      ∀ r ∈ l, ∃ v ∈ vs, f r = .ok v := by
  intro l
  induction l with
  | nil =>
    intro vs h r hr
    simp at hr
  | cons x rest ih =>
    intro vs h r hr
    simp only [exceptMapM] at h
    cases hx : f x with
    | error e => rw [hx] at h; simp at h
    | ok v =>
      rw [hx] at h
      cases hrest : exceptMapM f rest with
      | error e => rw [hrest] at h; simp at h
      | ok vs0 =>
        rw [hrest] at h
        simp only [Except.ok.injEq] at h
        subst h
        rcases List.mem_cons.mp hr with h1 | h1
        · subst h1
          exact ⟨v, List.mem_cons_self _ _, hx⟩
        · obtain ⟨v0, hv0, hfv0⟩ := ih hrest r h1
          exact ⟨v0, List.mem_cons_of_mem _ hv0, hfv0⟩

theorem requireAndDedup_error_of_mem :
    ∀ (vs : List BucketAccessRequest)
      (acc : List ((String × String × Option String) × BucketAccessRequest)),
    (∃ v ∈ vs, v.workspace = "" ∨ v.bucket = "" ∨ v.request_timestamp = none) →
    ∃ msg, requireAndDedup vs acc = .error msg := by
  intro vs
  induction vs with
  | nil =>
    intro acc ⟨v, hv, _⟩
    simp at hv
  | cons x rest ih =>
    intro acc ⟨v, hv, hbad⟩
    simp only [requireAndDedup]
    by_cases hx : x.workspace = "" ∨ x.bucket = "" ∨ x.request_timestamp = none
    · rw [if_pos hx]
      exact ⟨_, rfl⟩
    · rw [if_neg hx]
      rcases List.mem_cons.mp hv with h1 | h1
      · subst h1
        exact absurd hbad hx
      · exact ih _ ⟨v, h1, hbad⟩

theorem requireAndDedup_minfields :
    ∀ (vs : List BucketAccessRequest) (acc) (out : List BucketAccessRequest),
    requireAndDedup vs acc = .ok out →
    ∀ v ∈ vs, v.workspace ≠ "" ∧ v.bucket ≠ "" ∧ v.request_timestamp ≠ none := by
  intro vs
  induction vs with
  | nil =>
    intro acc out h v hv
    simp at hv
  | cons x rest ih =>
    intro acc out h v hv
    simp only [requireAndDedup] at h
    split at h
    · simp at h
    · rename_i hx
      push_neg at hx
      rcases List.mem_cons.mp hv with h1 | h1
      · subst h1
        exact hx
      · exact ih _ _ h v h1

theorem mem_of_getLast?_eq_some {α : Type} :
    ∀ {l : List α} {a : α}, l.getLast? = some a → a ∈ l := by
  intro l
  induction l with
  | nil => intro a h; simp at h
  | cons x rest ih =>
    intro a h
    cases rest with
    | nil =>
      simp at h
      simp [h]
    | cons y ys =>
      rw [List.getLast?_cons_cons] at h
      exact List.mem_cons_of_mem _ (ih h)

theorem getLast?_cons_of_ne_nil {α : Type} (x : α) {l : List α} (h : l ≠ []) :
    (x :: l).getLast? = l.getLast? := by
  cases l with
  | nil => exact absurd rfl h
  | cons y ys => rw [List.getLast?_cons_cons]

theorem dedupInsert_map_fst (k : String × String × Option String)
    (v : BucketAccessRequest)
    (acc : List ((String × String × Option String) × BucketAccessRequest)) :
    (dedupInsert k v acc).map Prod.fst =
      if k ∈ acc.map Prod.fst then acc.map Prod.fst
      else acc.map Prod.fst ++ [k] := by
  induction acc with
  | nil => simp [dedupInsert]
  | cons kv rest ih =>
    simp only [dedupInsert]
    by_cases hk : kv.1 = k
    · obtain ⟨k1, v1⟩ := kv
      simp only at hk
      subst hk
      rw [if_pos rfl]
      simp
    · obtain ⟨k1, v1⟩ := kv
      simp only at hk
      rw [if_neg hk]
      simp only [List.map_cons, ih]
      by_cases hm : k ∈ rest.map Prod.fst
      · rw [if_pos hm, if_pos (List.mem_cons_of_mem _ hm)]
      · rw [if_neg hm, if_neg (by
          intro hc
          rcases List.mem_cons.mp hc with h1 | h1
          · exact hk h1.symm
          · exact hm h1)]
        simp

theorem dedupInsert_mem {k : String × String × Option String}
    {v : BucketAccessRequest} {acc} {kv}
    (hnd : (acc.map Prod.fst).Nodup) (h : kv ∈ dedupInsert k v acc) :
    (kv = (k, v)) ∨ (kv ∈ acc ∧ kv.1 ≠ k) := by
  induction acc with
  | nil =>
    simp [dedupInsert] at h
    exact Or.inl h
  | cons kv0 rest ih =>
    simp only [List.map_cons, List.nodup_cons] at hnd
    simp only [dedupInsert] at h
    by_cases hk : kv0.1 = k
    · rw [if_pos hk] at h
      rcases List.mem_cons.mp h with h1 | h1
      · subst h1
        exact Or.inl (by rw [hk])
      · refine Or.inr ⟨List.mem_cons_of_mem _ h1, ?_⟩
        intro hc
        have hmem : kv.1 ∈ rest.map Prod.fst := List.mem_map.mpr ⟨kv, h1, rfl⟩
        rw [hc, ← hk] at hmem
        exact hnd.1 hmem
    · rw [if_neg hk] at h
      rcases List.mem_cons.mp h with h1 | h1
      · subst h1
        exact Or.inr ⟨List.mem_cons_self _ _, hk⟩
      · rcases ih hnd.2 h1 with h2 | h2
        · exact Or.inl h2
        · exact Or.inr ⟨List.mem_cons_of_mem _ h2.1, h2.2⟩

theorem dedupInsert_self_mem (k : String × String × Option String)
    (v : BucketAccessRequest) (acc) : (k, v) ∈ dedupInsert k v acc := by
  induction acc with
  | nil => simp [dedupInsert]
  | cons kv0 rest ih =>
    simp only [dedupInsert]
    by_cases hk : kv0.1 = k
    · rw [if_pos hk]
      subst hk
      exact List.mem_cons_self _ _
    · rw [if_neg hk]
      exact List.mem_cons_of_mem _ ih

theorem dedupInsert_key_consistent {k : String × String × Option String}
    {v : BucketAccessRequest} {acc}
    (hacc : ∀ kv ∈ acc, tripleKey kv.2 = kv.1) (hkv : tripleKey v = k) :
    ∀ kv ∈ dedupInsert k v acc, tripleKey kv.2 = kv.1 := by
  induction acc with
  | nil =>
    intro kv h
    simp [dedupInsert] at h
    subst h
    exact hkv
  | cons kv0 rest ih =>
    intro kv h
    simp only [dedupInsert] at h
    by_cases hk : kv0.1 = k
    · rw [if_pos hk] at h
      rcases List.mem_cons.mp h with h1 | h1
      · subst h1
        simp only
        rw [hkv, hk]
      · exact hacc kv (List.mem_cons_of_mem _ h1)
    · rw [if_neg hk] at h
      rcases List.mem_cons.mp h with h1 | h1
      · subst h1
        exact hacc kv0 (List.mem_cons_self _ _)
      · exact ih (fun x hx => hacc x (List.mem_cons_of_mem _ hx)) kv h1

theorem requireAndDedup_props :
    ∀ (vs : List BucketAccessRequest)
      (acc : List ((String × String × Option String) × BucketAccessRequest))
      (out : List BucketAccessRequest),
    requireAndDedup vs acc = .ok out →
    (∀ kv ∈ acc, tripleKey kv.2 = kv.1) →
    (acc.map Prod.fst).Nodup →
    (out.map tripleKey).Nodup ∧
    (∀ r ∈ out,
      (vs.filter (fun v => tripleKey v == tripleKey r)).getLast? = some r ∨
      (vs.filter (fun v => tripleKey v == tripleKey r) = [] ∧ (tripleKey r, r) ∈ acc)) ∧
    (∀ v ∈ vs, ∃ r ∈ out, tripleKey r = tripleKey v) ∧
    (∀ k ∈ acc.map Prod.fst, ∃ r ∈ out, tripleKey r = k) := by
  intro vs
  induction vs with
  | nil =>
    intro acc out h hacc hnd
    simp only [requireAndDedup, Except.ok.injEq] at h
    subst h
    have hmapeq : (acc.map Prod.snd).map tripleKey = acc.map Prod.fst := by
      rw [List.map_map]
      refine List.map_congr_left ?_
      intro kv hkv
      exact hacc kv hkv
    refine ⟨by rw [hmapeq]; exact hnd, ?_, ?_, ?_⟩
    · intro r hr
      refine Or.inr ⟨by simp, ?_⟩
      obtain ⟨kv, hkv, hkv2⟩ := List.mem_map.mp hr
      subst hkv2
      rw [hacc kv hkv]
      simpa using hkv
    · intro v hv
      simp at hv
    · intro k hk
      obtain ⟨kv, hkv, hkv2⟩ := List.mem_map.mp hk
      exact ⟨kv.2, List.mem_map.mpr ⟨kv, hkv, rfl⟩, by rw [hacc kv hkv, hkv2]⟩
  | cons x rest ih =>
    intro acc out h hacc hnd
    simp only [requireAndDedup] at h
    split at h
    · simp at h
    · have hacc' := dedupInsert_key_consistent (k := tripleKey x) (v := x) hacc rfl
      have hnd' : ((dedupInsert (tripleKey x) x acc).map Prod.fst).Nodup := by
        rw [dedupInsert_map_fst]
        split_ifs with hm
        · exact hnd
        · refine List.nodup_append.mpr ⟨hnd, List.nodup_singleton _, ?_⟩
          intro a ha hb
          simp at hb
          subst hb
          exact hm ha
      obtain ⟨hN, hP2, hP3, hP4⟩ := ih _ out h hacc' hnd'
      refine ⟨hN, ?_, ?_, ?_⟩
      · intro r hr
        rcases hP2 r hr with h1 | ⟨h1, h2⟩
        · left
          by_cases hkx : tripleKey x = tripleKey r
          · rw [List.filter_cons_of_pos (by simp [hkx])]
            rw [getLast?_cons_of_ne_nil]
            · exact h1
            · intro hc
              rw [hc] at h1
              simp at h1
          · rw [List.filter_cons_of_neg (by simp [hkx])]
            exact h1
        · rcases dedupInsert_mem hnd h2 with h3 | ⟨h3, h4⟩
          · have hrx : r = x := congrArg Prod.snd h3
            left
            subst hrx
            rw [List.filter_cons_of_pos (by simp), h1]
            rfl
          · right
            refine ⟨?_, h3⟩
            rw [List.filter_cons_of_neg ?_]
            · exact h1
            · simp only [beq_iff_eq]
              intro hc
              exact h4 hc.symm
      · intro v hv
        rcases List.mem_cons.mp hv with h1 | h1
        · subst h1
          refine hP4 (tripleKey v) ?_
          rw [dedupInsert_map_fst]
          split_ifs with hm
          · exact hm
          · exact List.mem_append.mpr (Or.inr (List.mem_singleton_self _))
        · exact hP3 v h1
      · intro k hk
        refine hP4 k ?_
        rw [dedupInsert_map_fst]
        split_ifs with hm
        · exact hk
        · exact List.mem_append.mpr (Or.inl hk)

/-- C10: `WorkspaceEdit._require_min_fields_and_dedup` rejects any patch list
holding an entry with empty workspace, empty bucket or null request_timestamp
(and that rejection fails the whole edit at `validateWorkspaceEdit`, before
any record is read or patched); on acceptance the output has pairwise
distinct (workspace, bucket, request_timestamp) triples, every output entry
is the LAST input occurrence of its triple, and every input triple is still
represented. -/
theorem C10_min_fields_and_dedup (vs : List BucketAccessRequest) :
    ((∃ v ∈ vs, v.workspace = "" ∨ v.bucket = "" ∨ v.request_timestamp = none) →
      ∃ msg, _require_min_fields_and_dedup vs = .error msg) ∧
    (∀ out, _require_min_fields_and_dedup vs = .ok out →
      (∀ v ∈ vs, v.workspace ≠ "" ∧ v.bucket ≠ "" ∧ v.request_timestamp ≠ none) ∧
      (out.map tripleKey).Nodup ∧
      (∀ r ∈ out, (vs.filter (fun v => tripleKey v == tripleKey r)).getLast? = some r) ∧
      (∀ v ∈ vs, ∃ r ∈ out, tripleKey r = tripleKey v)) ∧
    (∀ (raw : WorkspaceEditInput) (bs : List String) (msg : String),
      exceptMapM _validate_bucket_name raw.add_buckets = .ok bs →
      exceptMapM validateBucketAccessRequestInput raw.patch_bucket_access_requests = .ok vs →
      _require_min_fields_and_dedup vs = .error msg →
      validateWorkspaceEdit raw = .error msg) := by
  refine ⟨?_, ?_, ?_⟩
  · intro hbad
    exact requireAndDedup_error_of_mem vs [] hbad
  · intro out h
    obtain ⟨hN, hP2, hP3, _⟩ :=
      requireAndDedup_props vs [] out h (by simp) (by simp)
    refine ⟨requireAndDedup_minfields vs [] out h, hN, ?_, hP3⟩
    intro r hr
    rcases hP2 r hr with h1 | ⟨_, h2⟩
    · exact h1
    · simp at h2
  · intro raw bs msg h1 h2 h3
    simp only [validateWorkspaceEdit, h1, h2, h3]

/-- Witness for C10: a null-timestamp entry is rejected (also through the full
edit validation), and a three-entry list with a repeated triple dedups to the
last occurrences. -/
theorem C10_witness :
    (∃ msg, _require_min_fields_and_dedup
      [⟨"wsa", "bbb", .READ_WRITE, none, none, none, none⟩] = .error msg) ∧
    ((∀ v ∈ ([⟨"wsa", "bbb", .READ_ONLY, some "t1", none, none, none⟩,
              ⟨"wsa", "bbb", .READ_WRITE, some "t1", none, none, none⟩,
              ⟨"wsa", "ccc", .READ_WRITE, some "t2", none, none, none⟩] :
                List BucketAccessRequest),
        v.workspace ≠ "" ∧ v.bucket ≠ "" ∧ v.request_timestamp ≠ none) ∧
     (([⟨"wsa", "bbb", .READ_WRITE, some "t1", none, none, none⟩,
        ⟨"wsa", "ccc", .READ_WRITE, some "t2", none, none, none⟩] :
          List BucketAccessRequest).map tripleKey).Nodup ∧
     (∀ r ∈ ([⟨"wsa", "bbb", .READ_WRITE, some "t1", none, none, none⟩,
              ⟨"wsa", "ccc", .READ_WRITE, some "t2", none, none, none⟩] :
                List BucketAccessRequest),
        (([⟨"wsa", "bbb", .READ_ONLY, some "t1", none, none, none⟩,
           ⟨"wsa", "bbb", .READ_WRITE, some "t1", none, none, none⟩,
           ⟨"wsa", "ccc", .READ_WRITE, some "t2", none, none, none⟩] :
             List BucketAccessRequest).filter
          (fun v => tripleKey v == tripleKey r)).getLast? = some r) ∧
     (∀ v ∈ ([⟨"wsa", "bbb", .READ_ONLY, some "t1", none, none, none⟩,
              ⟨"wsa", "bbb", .READ_WRITE, some "t1", none, none, none⟩,
              ⟨"wsa", "ccc", .READ_WRITE, some "t2", none, none, none⟩] :
                List BucketAccessRequest),
        ∃ r ∈ ([⟨"wsa", "bbb", .READ_WRITE, some "t1", none, none, none⟩,
                ⟨"wsa", "ccc", .READ_WRITE, some "t2", none, none, none⟩] :
                  List BucketAccessRequest),
          tripleKey r = tripleKey v)) ∧
    validateWorkspaceEdit
      ⟨[], [⟨"wsa", "bbb", .READ_WRITE, none, none, none⟩]⟩ =
      .error "patch_bucket_access_requests must set workspace, bucket, request_timestamp" :=
  ⟨(C10_min_fields_and_dedup
      [⟨"wsa", "bbb", .READ_WRITE, none, none, none, none⟩]).1
      ⟨⟨"wsa", "bbb", .READ_WRITE, none, none, none, none⟩, by decide⟩,
   (C10_min_fields_and_dedup
      [⟨"wsa", "bbb", .READ_ONLY, some "t1", none, none, none⟩,
       ⟨"wsa", "bbb", .READ_WRITE, some "t1", none, none, none⟩,
       ⟨"wsa", "ccc", .READ_WRITE, some "t2", none, none, none⟩]).2.1
      [⟨"wsa", "bbb", .READ_WRITE, some "t1", none, none, none⟩,
       ⟨"wsa", "ccc", .READ_WRITE, some "t2", none, none, none⟩] (by decide),
   (C10_min_fields_and_dedup
      [⟨"wsa", "bbb", .READ_WRITE, none, none, none, none⟩]).2.2
      ⟨[], [⟨"wsa", "bbb", .READ_WRITE, none, none, none⟩]⟩ [] _
      (by decide) (by decide) (by decide)⟩
